import Mathlib

/-!
# raft-pebble: the storage adapter over an ordered key-value engine

A shallow embedding of `pebble_store.go`: the log store (`FirstIndex`,
`LastIndex`, `GetLog`, `StoreLog`, `StoreLogs`, `DeleteRange`) and the stable
store (`Set`, `Get`, `SetUint64`, `GetUint64`).

Byte strings are lists of naturals; `uint64` values are naturals reduced
modulo `2 ^ 64` where the Go arithmetic can wrap.  A Go result pair
`(value, err)` is a pair whose second component is `none` for a nil error.
-/

namespace RaftPebble

/-- A Go byte slice. -/
abbrev Bytes := List Nat

/-- The error values the adapter and its collaborators return.  The first three
are declared in `pebble_store.go`; `ErrLogNotFound` is `raft.ErrLogNotFound`,
`PebbleErrNotFound` is the engine's own miss, `engineFault` any other engine
failure and `codecFault` a failure of the entry codec. -/
inductive Error where
  | ErrKeyNotFound
  | ErrFirstIndexKeyNotFound
  | ErrLastIndexKeyNotFound
  | ErrLogNotFound
  | PebbleErrNotFound
  | engineFault (code : Nat)
  | codecFault (code : Nat)
  deriving DecidableEq, Repr

/-- The namespace tag of log keys: `prefixLog = []byte{0x00}`. -/
def prefixLog : Bytes := [0x00]

/-- The namespace tag of metadata keys: `prefixConf = []byte{0x01}`. -/
def prefixConf : Bytes := [0x01]

/-! ## The key-value engine -/

/-- Modelled from the spec: the engine's key comparison, the lexicographic byte
order under which "lexicographic key order equals numeric index order";
`keyLt a b` is `bytes.Compare(a, b) < 0`. -/
def keyLt : Bytes → Bytes → Bool
  | [], [] => false
  | [], _ :: _ => true
  | _ :: _, [] => false
  | a :: as, b :: bs => if a < b then true else if b < a then false else keyLt as bs

/-- Modelled from the spec: the contents of the key-value substrate, newest
write first; a key's value is the one of its first occurrence. -/
abbrev DB := List (Bytes × Bytes)

/-- Modelled from the spec: what the engine's point `get(key) -> value | miss`
hands back to Go: the value (`none` for a nil slice), the closer (`none` for a
nil closer, otherwise what its `Close` returns) and the error. -/
structure GetResult where
  val : Option Bytes
  closer : Option (Option Error)
  err : Option Error
  deriving DecidableEq, Repr

/-- The value stored under a key, if any. -/
def DB.lookup (db : DB) (k : Bytes) : Option Bytes :=
  match db with
  | [] => none
  | (k', v) :: rest => if k' = k then some v else DB.lookup rest k

/-- Modelled from the spec: the engine's point get on a healthy engine: a hit
gives the value and a closer that closes cleanly, a miss gives a nil value, a
nil closer and the engine's not-found error. -/
def DB.get (db : DB) (k : Bytes) : GetResult :=
  match db.lookup k with
  | some v => ⟨some v, some none, none⟩
  | none => ⟨none, none, some Error.PebbleErrNotFound⟩

/-- Modelled from the spec: the engine's point `set(key, value, durability)`. -/
def DB.set (db : DB) (k v : Bytes) : DB := (k, v) :: db

/-- Modelled from the spec: the engine's
`deleteRange(lowKeyInclusive, highKeyExclusive)`: every key `k` with
`fk ≤ k < lk` is removed. -/
def DB.deleteRange (db : DB) (fk lk : Bytes) : DB :=
  db.filter (fun kv => !(!keyLt kv.1 fk && keyLt kv.1 lk))

/-- Modelled from the spec: a write batch, the writes in the order they were
added. -/
abbrev Batch := List (Bytes × Bytes)

/-- Modelled from the spec: `batchSet`, adding one more write to a batch. -/
def Batch.set (wb : Batch) (k v : Bytes) : Batch := wb ++ [(k, v)]

/-- Modelled from the spec: `applyBatch`, all writes of the batch applied
together, in the order they were added. -/
def DB.apply (db : DB) (wb : Batch) : DB :=
  wb.foldl (fun d kv => DB.set d kv.1 kv.2) db

/-- Modelled from the spec: an iterator with only a lower bound positioned by
`First`: the smallest key not below `lower`, `none` when `First` is false. -/
def DB.iterFirst (db : DB) (lower : Bytes) : Option Bytes :=
  match db with
  | [] => none
  | (k, _) :: rest =>
    if keyLt k lower then DB.iterFirst rest lower
    else
      match DB.iterFirst rest lower with
      | none => some k
      | some m => if keyLt k m then some k else some m

/-- Modelled from the spec: an iterator with only a lower bound positioned by
`Last`: the largest key not below `lower`, `none` when `Last` is false. -/
def DB.iterLast (db : DB) (lower : Bytes) : Option Bytes :=
  match db with
  | [] => none
  | (k, _) :: rest =>
    if keyLt k lower then DB.iterLast rest lower
    else
      match DB.iterLast rest lower with
      | none => some k
      | some m => if keyLt m k then some k else some m

/-! ## Helpers of the adapter -/

/-- Modelled from the spec: the helper `uint64ToBytes` (its file is not among
the sources): the value "as 8 fixed-width bytes (big-endian)". -/
def uint64ToBytes (u : Nat) : Bytes :=
  [u / 2 ^ 56 % 256, u / 2 ^ 48 % 256, u / 2 ^ 40 % 256, u / 2 ^ 32 % 256,
   u / 2 ^ 24 % 256, u / 2 ^ 16 % 256, u / 2 ^ 8 % 256, u % 256]

/-- Modelled from the spec: the helper `bytesToUint64` (its file is not among
the sources): the big-endian value of the first 8 bytes.  The sources do not
say what it does on fewer than 8 bytes; nothing below is stated there. -/
def bytesToUint64 (b : Bytes) : Nat :=
  (b.take 8).foldl (fun acc x => acc * 256 + x) 0

/-- Modelled from the spec: the helper `FirstError` (its file is not among the
sources): the first of two errors that is not nil. -/
def FirstError (e1 e2 : Option Error) : Option Error :=
  match e1 with
  | some e => some e
  | none => e2

/-- The fields of `raft.Log` the store persists; `LogType` is the field `Type`
(a reserved word here). -/
structure Log where
  Index : Nat
  Term : Nat
  LogType : Nat
  Data : Bytes
  Extensions : Bytes
  deriving DecidableEq, Repr

/-- The entry codec (`encodeMsgPack`, `decodeMsgPack`; their file is not among
the sources), taken as a parameter.  Decoding receives the bytes and the
current contents of the destination and returns the error and the new
contents. -/
structure Codec where
  encodeMsgPack : Log → Except Error Bytes
  decodeMsgPack : Bytes → Log → Option Error × Log

/-- The adapter: `PebbleKVStore`, reduced to the engine handle's contents. -/
structure PebbleKVStore where
  db : DB
  deriving DecidableEq, Repr

/-! ## The log store -/

/-- `FirstIndex`: an iterator bounded below by `prefixLog`; when `First` finds a
key its bytes after the tag are decoded, otherwise the result is `0` with
`ErrFirstIndexKeyNotFound`.  The deferred `iter.Close()` returns nil on a
healthy engine. -/
def PebbleKVStore.FirstIndex (s : PebbleKVStore) : Nat × Option Error :=
  match s.db.iterFirst prefixLog with
  | some key => (bytesToUint64 (key.drop prefixLog.length), FirstError none none)
  | none => (0, FirstError (some Error.ErrFirstIndexKeyNotFound) none)

/-- `LastIndex`: the same iterator positioned by `Last`. -/
def PebbleKVStore.LastIndex (s : PebbleKVStore) : Nat × Option Error :=
  match s.db.iterLast prefixLog with
  | some key => (bytesToUint64 (key.drop prefixLog.length), FirstError none none)
  | none => (0, FirstError (some Error.ErrLastIndexKeyNotFound) none)

/-- The body of `GetLog` once the engine's `Get` has returned `r`: a nil value
gives `raft.ErrLogNotFound` and leaves the destination alone; otherwise the
value is decoded into the destination and the deferred function combines the
decoding error with the closer's. -/
def GetLogFrom (c : Codec) (r : GetResult) (log : Log) : Option Error × Log :=
  match r.val with
  | none => (some Error.ErrLogNotFound, log)
  | some val =>
    let d := c.decodeMsgPack val log
    match r.closer with
    | some closeErr => (FirstError d.1 closeErr, d.2)
    | none => (d.1, d.2)

/-- `GetLog`: the point get of `append(prefixLog, uint64ToBytes(index)...)`
followed by `GetLogFrom`. -/
def PebbleKVStore.GetLog (c : Codec) (s : PebbleKVStore) (index : Nat) (log : Log) :
    Option Error × Log :=
  GetLogFrom c (s.db.get (prefixLog ++ uint64ToBytes index)) log

/-- `storeLog`: encode, then one point set; an encoding error is returned and
nothing is written.  The engine's set succeeds on a healthy engine. -/
def PebbleKVStore.storeLog (c : Codec) (s : PebbleKVStore) (log : Log) :
    Option Error × PebbleKVStore :=
  let key := prefixLog ++ uint64ToBytes log.Index
  match c.encodeMsgPack log with
  | .error err => (some err, s)
  | .ok val => (none, ⟨s.db.set key val⟩)

/-- `StoreLog` calls `storeLog`. -/
def PebbleKVStore.StoreLog (c : Codec) (s : PebbleKVStore) (log : Log) :
    Option Error × PebbleKVStore :=
  s.storeLog c log

/-- The loop of `StoreLogs`: each entry is encoded and added to the batch; the
first encoding error leaves the loop. -/
def StoreLogs.loop (c : Codec) : List Log → Batch → Except Error Batch
  | [], wb => .ok wb
  | log :: rest, wb =>
    let key := prefixLog ++ uint64ToBytes log.Index
    match c.encodeMsgPack log with
    | .error err => .error err
    | .ok val => StoreLogs.loop c rest (wb.set key val)

/-- `StoreLogs`: a new batch is filled by the loop and applied; when the loop
returns an error the batch is closed without being applied.  The deferred
`wb.Close()` returns nil. -/
def PebbleKVStore.StoreLogs (c : Codec) (s : PebbleKVStore) (logs : List Log) :
    Option Error × PebbleKVStore :=
  match StoreLogs.loop c logs [] with
  | .error err => (FirstError (some err) none, s)
  | .ok wb => (FirstError none none, ⟨s.db.apply wb⟩)

/-- `DeleteRange`: the engine's range deletion from the key of `min` to the key
of `max+1`, the sum taken in `uint64`. -/
def PebbleKVStore.DeleteRange (s : PebbleKVStore) (min max : Nat) :
    Option Error × PebbleKVStore :=
  let fk := prefixLog ++ uint64ToBytes min
  let lk := prefixLog ++ uint64ToBytes ((max + 1) % 2 ^ 64)
  (none, ⟨s.db.deleteRange fk lk⟩)

/-! ## The stable store -/

/-- `Set`: one point set of `append(prefixConf, key...)`. -/
def PebbleKVStore.Set (s : PebbleKVStore) (key val : Bytes) : Option Error × PebbleKVStore :=
  let confKey := prefixConf ++ key
  (none, ⟨s.db.set confKey val⟩)

/-- The body of `Get` once the engine's `Get` has returned `r`: a nil value
gives `ErrKeyNotFound`; otherwise the value is returned with the engine's
error combined with the closer's. -/
def GetFrom (r : GetResult) : Option Bytes × Option Error :=
  match r.val with
  | none => (none, some Error.ErrKeyNotFound)
  | some value =>
    match r.closer with
    | some closeErr => (some value, FirstError r.err closeErr)
    | none => (some value, r.err)

/-- `Get`: the point get of `append(prefixConf, key...)` followed by
`GetFrom`. -/
def PebbleKVStore.Get (s : PebbleKVStore) (key : Bytes) : Option Bytes × Option Error :=
  GetFrom (s.db.get (prefixConf ++ key))

/-- `SetUint64` is `Set` of the 8 bytes of the value. -/
def PebbleKVStore.SetUint64 (s : PebbleKVStore) (key : Bytes) (val : Nat) :
    Option Error × PebbleKVStore :=
  s.Set key (uint64ToBytes val)

/-- `GetUint64` is `Get` followed by `bytesToUint64`; an error gives `0`. -/
def PebbleKVStore.GetUint64 (s : PebbleKVStore) (key : Bytes) : Nat × Option Error :=
  match s.Get key with
  | (_, some err) => (0, some err)
  | (val, none) => (bytesToUint64 (val.getD []), none)

/-! ## Notions used in the statements -/

/-- The store holds a log entry at index `i`: the key of `i` is present in the
engine. -/
def PebbleKVStore.hasLog (s : PebbleKVStore) (i : Nat) : Bool :=
  (s.db.lookup (prefixLog ++ uint64ToBytes i)).isSome

/-- A key of the LOG namespace: the tag followed by the 8 bytes of an index. -/
def isLogKey (k : Bytes) : Bool :=
  k == prefixLog ++ uint64ToBytes (bytesToUint64 (k.drop prefixLog.length))

/-- A key of the META namespace: the tag followed by the caller's bytes. -/
def isConfKey (k : Bytes) : Bool :=
  k.take prefixConf.length == prefixConf

/-- Every key of the engine was written by the adapter: it is a log key or a
metadata key. -/
def DB.wellFormed (db : DB) : Bool :=
  db.all (fun kv => isLogKey kv.1 || isConfKey kv.1)

/-- Two entries agree in `Index`, `Term`, `Type` and `Data`. -/
def sameEntry (a b : Log) : Prop :=
  a.Index = b.Index ∧ a.Term = b.Term ∧ a.LogType = b.LogType ∧ a.Data = b.Data

/-- The entry codec decodes what it encoded: decoding the bytes of an entry
succeeds, into whatever destination, with an entry that agrees with it. -/
def Codec.RoundTrip (c : Codec) : Prop :=
  ∀ (e : Log) (b : Bytes) (out : Log), c.encodeMsgPack e = .ok b →
    (c.decodeMsgPack b out).1 = none ∧ sameEntry (c.decodeMsgPack b out).2 e

/-- The last entry of a list whose `Index` is `i`. -/
def lastWithIndex : List Log → Nat → Option Log
  | [], _ => none
  | e :: rest, i =>
    match lastWithIndex rest i with
    | some e' => some e'
    | none => if e.Index = i then some e else none

/-- A call of one of the adapter's mutating operations. -/
inductive Op where
  | storeLog (log : Log)
  | storeLogs (logs : List Log)
  | deleteRange (min max : Nat)
  | set (key val : Bytes)
  | setUint64 (key : Bytes) (val : Nat)

/-- The store after one call. -/
def PebbleKVStore.step (c : Codec) (s : PebbleKVStore) : Op → PebbleKVStore
  | .storeLog log => (s.StoreLog c log).2
  | .storeLogs logs => (s.StoreLogs c logs).2
  | .deleteRange min max => (s.DeleteRange min max).2
  | .set key val => (s.Set key val).2
  | .setUint64 key val => (s.SetUint64 key val).2

/-- The store after a sequence of calls. -/
def PebbleKVStore.run (c : Codec) (s : PebbleKVStore) (ops : List Op) : PebbleKVStore :=
  ops.foldl (PebbleKVStore.step c) s

/-- The call writes the metadata key `k`. -/
def Op.setsKey (k : Bytes) : Op → Bool
  | .set key _ => key == k
  | .setUint64 key _ => key == k
  | _ => false

/-- A freshly opened store: the engine holds no key. -/
def PebbleKVStore.fresh : PebbleKVStore := ⟨[]⟩

/-- A fixed-layout entry codec for instantiating the statements: 8 bytes of
index, 8 bytes of term, one byte of type, then the payload.  Encoding fails on
a field out of its range and on a payload longer than `maxData`. -/
def plainCodec (maxData : Nat) : Codec where
  encodeMsgPack e :=
    if e.Index < 2 ^ 64 ∧ e.Term < 2 ^ 64 ∧ e.LogType < 256 ∧ e.Data.length ≤ maxData then
      .ok (uint64ToBytes e.Index ++ uint64ToBytes e.Term ++ e.LogType :: e.Data)
    else .error (Error.codecFault 1)
  decodeMsgPack b out :=
    if b.length < 17 then (some (Error.codecFault 2), out)
    else (none, { Index := bytesToUint64 (b.take 8)
                  Term := bytesToUint64 ((b.drop 8).take 8)
                  LogType := (b.drop 16).headD 0
                  Data := b.drop 17
                  Extensions := out.Extensions })

/-- The entries the tests store: indices 1, 2, 3 in term 1 with the payloads
"log1", "log2", "log3". -/
def testLogs : List Log :=
  [⟨1, 1, 0, [108, 111, 103, 49], []⟩, ⟨2, 1, 0, [108, 111, 103, 50], []⟩,
   ⟨3, 1, 0, [108, 111, 103, 51], []⟩]

/-- A metadata key of 8 bytes, "raftterm". -/
def termKey : Bytes := [114, 97, 102, 116, 116, 101, 114, 109]

/-- An entry's destination as the tests allocate it: `new(raft.Log)`. -/
def newLog : Log := ⟨0, 0, 0, [], []⟩

/-- The key of a log entry: `append(prefixLog, uint64ToBytes(index)...)`, as
`GetLog`, `storeLog`, `StoreLogs` and `DeleteRange` build it: the byte `0x00`
followed by the 8 bytes of the index. -/
def logKey (index : Nat) : Bytes := prefixLog ++ uint64ToBytes index

/-! ## Configuration and the busy signal -/

/-- The tuning profile `RaftLogRocksDBConfig`; every field is a `uint64`. -/
structure RaftLogRocksDBConfig where
  Shards : Nat
  KVKeepLogFileNum : Nat
  KVMaxBackgroundCompactions : Nat
  KVMaxBackgroundFlushes : Nat
  KVLRUCacheSize : Nat
  KVWriteBufferSize : Nat
  KVMaxWriteBufferNumber : Nat
  KVLevel0FileNumCompactionTrigger : Nat
  KVLevel0SlowdownWritesTrigger : Nat
  KVLevel0StopWritesTrigger : Nat
  KVMaxBytesForLevelBase : Nat
  KVMaxBytesForLevelMultiplier : Nat
  KVTargetFileSizeBase : Nat
  KVTargetFileSizeMultiplier : Nat
  KVLevelCompactionDynamicLevelBytes : Nat
  KVRecycleLogFileNum : Nat
  KVNumOfLevels : Nat
  KVBlockSize : Nat
  SaveBufferSize : Nat
  MaxSaveBufferSize : Nat
  deriving DecidableEq, Repr

/-- The constant `defaultLogDBShards`. -/
def defaultLogDBShards : Nat := 1

/-- The profile `getDefaultRaftLogRocksDBConfig` returns. -/
def getDefaultRaftLogRocksDBConfig : RaftLogRocksDBConfig where
  Shards := defaultLogDBShards
  KVMaxBackgroundCompactions := 2
  KVMaxBackgroundFlushes := 2
  KVLRUCacheSize := 0
  KVKeepLogFileNum := 16
  KVWriteBufferSize := 128 * 1024 * 1024
  KVMaxWriteBufferNumber := 4
  KVLevel0FileNumCompactionTrigger := 8
  KVLevel0SlowdownWritesTrigger := 17
  KVLevel0StopWritesTrigger := 24
  KVMaxBytesForLevelBase := 4 * 1024 * 1024 * 1024
  KVMaxBytesForLevelMultiplier := 2
  KVTargetFileSizeBase := 16 * 1024 * 1024
  KVTargetFileSizeMultiplier := 2
  KVLevelCompactionDynamicLevelBytes := 0
  KVRecycleLogFileNum := 0
  KVNumOfLevels := 7
  KVBlockSize := 32 * 1024
  SaveBufferSize := 32 * 1024
  MaxSaveBufferSize := 64 * 1024 * 1024

/-- `GetLargeMemRaftLogRocksDBConfig` returns the default profile. -/
def GetLargeMemRaftLogRocksDBConfig : RaftLogRocksDBConfig :=
  getDefaultRaftLogRocksDBConfig

/-- `GetDefaultRaftLogRocksDBConfig` returns the large-memory profile. -/
def GetDefaultRaftLogRocksDBConfig : RaftLogRocksDBConfig :=
  GetLargeMemRaftLogRocksDBConfig

/-- `GetTinyMemRaftLogRocksDBConfig`: the default profile with a write buffer of
4 MiB and 4 write buffers. -/
def GetTinyMemRaftLogRocksDBConfig : RaftLogRocksDBConfig :=
  { getDefaultRaftLogRocksDBConfig with
    KVWriteBufferSize := 4 * 1024 * 1024
    KVMaxWriteBufferNumber := 4 }

/-- The Go conversion `int64(x)` of a `uint64`: the same 64 bits read as a
signed integer.  `int(x)` is the same conversion where `int` has 64 bits. -/
def toInt64 (u : Nat) : Int :=
  if u % 2 ^ 64 < 2 ^ 63 then (u % 2 ^ 64 : Nat) else ((u % 2 ^ 64 : Nat) : Int) - 2 ^ 64

/-- Modelled from the spec: the compression settings of the engine's per-level
options. -/
inductive Compression where
  | DefaultCompression
  | NoCompression
  | SnappyCompression
  | ZstdCompression
  deriving DecidableEq, Repr

/-- Modelled from the spec: the fields of `pebble.LevelOptions` that `New`
sets. -/
structure LevelOptions where
  Compression : Compression
  BlockSize : Int
  TargetFileSize : Int
  deriving DecidableEq, Repr

/-- Modelled from the spec: the event listener of an engine configuration:
none, the adapter's three hooks (`onWALCreated`, `onFlushEnd`,
`onCompactionEnd`), or hooks of the caller. -/
inductive Listener where
  | unset
  | adapter
  | custom (id : Nat)
  deriving DecidableEq, Repr

/-- Modelled from the spec: the fields of `pebble.Options` that `New` sets; the
cache is its size, the logger and the file system are names. -/
structure PebbleOptions where
  Levels : List LevelOptions
  MaxManifestFileSize : Int
  MemTableSize : Int
  MemTableStopWritesThreshold : Int
  LBaseMaxBytes : Int
  L0CompactionFileThreshold : Int
  L0StopWritesThreshold : Int
  Cache : Int
  Logger : Nat
  FS : Nat
  WALDir : String
  FormatMajorVersionNewest : Bool
  EventListener : Listener
  deriving DecidableEq, Repr

/-- The constant `maxLogFileSize`. -/
def maxLogFileSize : Nat := 1024 * 1024 * 128

/-- The struct `options`; a callback (`LogDBCallback`) is a name, `none` for a
nil callback, and `pebbleOptions` is `none` for a nil pointer. -/
structure options where
  config : RaftLogRocksDBConfig
  logger : Nat
  fs : Nat
  walDir : String
  dir : String
  callback : Option Nat
  pebbleOptions : Option PebbleOptions
  deriving DecidableEq, Repr

/-- The interface `Option` of the sources (the name is Lean's here): a function
applied to the options. -/
abbrev KVOption := options → options

/-- `WithConfig`. -/
def WithConfig (config : RaftLogRocksDBConfig) : KVOption :=
  fun o => { o with config := config }

/-- `WithLogger`. -/
def WithLogger (logger : Nat) : KVOption :=
  fun o => { o with logger := logger }

/-- `WithFS`. -/
def WithFS (fs : Nat) : KVOption :=
  fun o => { o with fs := fs }

/-- `WithWalDirPath`. -/
def WithWalDirPath (walDir : String) : KVOption :=
  fun o => { o with walDir := walDir }

/-- `WithDbDirPath`. -/
def WithDbDirPath (dbDir : String) : KVOption :=
  fun o => { o with dir := dbDir }

/-- `WithLogDBCallback`. -/
def WithLogDBCallback (cb : Option Nat) : KVOption :=
  fun o => { o with callback := cb }

/-- `WithPebbleOptions`. -/
def WithPebbleOptions (opts : Option PebbleOptions) : KVOption :=
  fun o => { o with pebbleOptions := opts }

/-- `getOptions`: the default profile, `pebble.DefaultLogger` and `vfs.Default`
(both named 0), then every option applied in order. -/
def getOptions (opts : List KVOption) : options :=
  opts.foldl (fun o f => f o)
    { config := GetDefaultRaftLogRocksDBConfig, logger := 0, fs := 0, walDir := "", dir := "",
      callback := none, pebbleOptions := none }

/-- The loop of `New` over the levels: with `n` iterations left and the running
size `sz`, one `LevelOptions` is appended and `sz` is multiplied in
`uint64`. -/
def New.levelLoop (config : RaftLogRocksDBConfig) :
    Nat → Nat → List LevelOptions → List LevelOptions
  | 0, _, lopts => lopts
  | n + 1, sz, lopts =>
    let opt : LevelOptions :=
      { Compression := Compression.NoCompression
        BlockSize := toInt64 config.KVBlockSize
        TargetFileSize := toInt64 sz }
    New.levelLoop config n (sz * config.KVTargetFileSizeMultiplier % 2 ^ 64) (lopts ++ [opt])

/-- The level options `New` builds: `numOfLevels := int64(config.KVNumOfLevels)`
iterations (none when that is negative) from `sz := config.KVTargetFileSizeBase`
and an empty list. -/
def New.levels (config : RaftLogRocksDBConfig) : List LevelOptions :=
  New.levelLoop config (toInt64 config.KVNumOfLevels).toNat
    (config.KVTargetFileSizeBase % 2 ^ 64) []

/-- What `New` has when it calls `pebble.Open`: the directory and the options
it passes, and the options it keeps in the store as `kv.options`. -/
structure NewCall where
  dir : String
  opts : PebbleOptions
  kvOptions : options
  deriving DecidableEq, Repr

/-- `New` up to `pebble.Open`: the engine options are derived from the profile,
the adapter's event listener is set on them, and a non-nil `pebbleOptions`
then replaces them. -/
def New (os : List KVOption) : NewCall :=
  let kvStoreOpts := getOptions os
  let config := kvStoreOpts.config
  let opts : PebbleOptions :=
    { Levels := New.levels config
      MaxManifestFileSize := maxLogFileSize
      MemTableSize := toInt64 config.KVWriteBufferSize
      MemTableStopWritesThreshold := toInt64 config.KVMaxWriteBufferNumber
      LBaseMaxBytes := toInt64 config.KVMaxBytesForLevelBase
      L0CompactionFileThreshold := toInt64 config.KVLevel0FileNumCompactionTrigger
      L0StopWritesThreshold := toInt64 config.KVLevel0StopWritesTrigger
      Cache := toInt64 config.KVLRUCacheSize
      Logger := kvStoreOpts.logger
      FS := kvStoreOpts.fs
      WALDir := kvStoreOpts.walDir
      FormatMajorVersionNewest := true
      EventListener := Listener.unset }
  let opts := { opts with EventListener := Listener.adapter }
  let opts := match kvStoreOpts.pebbleOptions with
    | some p => p
    | none => opts
  { dir := kvStoreOpts.dir, opts := opts, kvOptions := kvStoreOpts }

/-- Modelled from the spec: the two readings of the engine's metrics that
`notify` uses: `MemTable.Size` and `Levels[0].Sublevels`. -/
structure Metrics where
  MemTableSize : Nat
  L0Sublevels : Nat
  deriving DecidableEq, Repr

/-- `eventListener.notify`, as what is passed to the callback: nothing while
`dbSet` is not closed or when no callback is registered; otherwise `busy`,
computed in `uint64` from `l.kv.options.config` and the metrics. -/
def eventListener.notify (kvOptions : options) (dbSet : Bool) (m : Metrics) : Option Bool :=
  if dbSet then
    match kvOptions.callback with
    | some _ =>
      let memSizeThreshold :=
        kvOptions.config.KVWriteBufferSize * kvOptions.config.KVMaxWriteBufferNumber % 2 ^ 64
          * 19 % 2 ^ 64 / 20
      let l0FileNumThreshold :=
        (kvOptions.config.KVLevel0StopWritesTrigger % 2 ^ 64 + 2 ^ 64 - 1) % 2 ^ 64
      let busy := decide (m.MemTableSize ≥ memSizeThreshold) ||
        decide (m.L0Sublevels % 2 ^ 64 ≥ l0FileNumThreshold)
      some busy
    | none => none
  else none

/-- The busy formula in the spec's words: the memtable holds at least 95% of
write buffer size times write buffer count, in exact arithmetic, or the
level-0 count is at least the stop-writes threshold minus one. -/
def busyFormula (W N S m l : Nat) : Prop :=
  (m : ℚ) ≥ (W : ℚ) * (N : ℚ) * (95 / 100) ∨ (l : ℤ) ≥ (S : ℤ) - 1

/-- An engine configuration of the caller, for instantiating the statements:
one level, a memtable of 64 MiB and hooks of its own. -/
def callerOptions : PebbleOptions where
  Levels := [{ Compression := Compression.SnappyCompression, BlockSize := 4096,
               TargetFileSize := 2097152 }]
  MaxManifestFileSize := 134217728
  MemTableSize := 67108864
  MemTableStopWritesThreshold := 2
  LBaseMaxBytes := 67108864
  L0CompactionFileThreshold := 4
  L0StopWritesThreshold := 12
  Cache := 8388608
  Logger := 1
  FS := 1
  WALDir := ""
  FormatMajorVersionNewest := true
  EventListener := Listener.custom 7

/-! ## The key order -/

theorem keyLt_irrefl (a : Bytes) : keyLt a a = false := by
  induction a with
  | nil => rfl
  | cons x xs ih => simp [keyLt, ih]

theorem keyLt_trans : ∀ (a b c : Bytes), keyLt a b = true → keyLt b c = true → keyLt a c = true
  | [], [], _, h, _ => by simp [keyLt] at h
  | [], _ :: _, [], _, h => by simp [keyLt] at h
  | [], _ :: _, _ :: _, _, _ => by simp [keyLt]
  | _ :: _, [], _, h, _ => by simp [keyLt] at h
  | _ :: _, _ :: _, [], _, h => by simp [keyLt] at h
  | x :: xs, y :: ys, z :: zs, h1, h2 => by
    simp only [keyLt] at h1 h2 ⊢
    by_cases hxy : x < y
    · by_cases hyz : y < z
      · have : x < z := by omega
        simp [this]
      · by_cases hzy : z < y
        · simp [hyz, hzy] at h2
        · have : x < z := by omega
          simp [this]
    · by_cases hyx : y < x
      · simp [hxy, hyx] at h1
      · have hxy' : x = y := by omega
        subst hxy'
        simp only [hxy, if_false] at h1
        by_cases hxz : x < z
        · simp [hxz]
        · by_cases hzx : z < x
          · simp [hxz, hzx] at h2
          · simp only [hxz, hzx, if_false] at h2 ⊢
            exact keyLt_trans xs ys zs h1 h2

theorem keyLt_total : ∀ (a b : Bytes), keyLt a b = false → keyLt b a = false → a = b
  | [], [], _, _ => rfl
  | [], _ :: _, h, _ => by simp [keyLt] at h
  | _ :: _, [], _, h => by simp [keyLt] at h
  | x :: xs, y :: ys, h1, h2 => by
    simp only [keyLt] at h1 h2
    by_cases hxy : x < y
    · simp [hxy] at h1
    · by_cases hyx : y < x
      · simp [hyx] at h2
      · simp only [hxy, hyx, if_false] at h1 h2
        have : x = y := by omega
        rw [this, keyLt_total xs ys h1 h2]

theorem keyLt_asymm (a b : Bytes) (h : keyLt a b = true) : keyLt b a = false := by
  cases hba : keyLt b a with
  | false => rfl
  | true =>
    have := keyLt_trans a b a h hba
    rw [keyLt_irrefl] at this
    exact absurd this (by decide)

/-! ## The index encoding -/

theorem bytesToUint64_uint64ToBytes (u : Nat) :
    bytesToUint64 (uint64ToBytes u) = u % 2 ^ 64 := by
  simp only [bytesToUint64, uint64ToBytes, List.take, List.foldl]
  omega

theorem uint64ToBytes_mod (u : Nat) : uint64ToBytes (u % 2 ^ 64) = uint64ToBytes u := by
  simp only [uint64ToBytes, List.cons.injEq, and_true]
  refine ⟨?_, ?_, ?_, ?_, ?_, ?_, ?_, ?_⟩ <;> omega

theorem uint64ToBytes_length (u : Nat) : (uint64ToBytes u).length = 8 := rfl

theorem uint64ToBytes_lt (u : Nat) : ∀ x ∈ uint64ToBytes u, x < 256 := by
  intro x hx
  simp only [uint64ToBytes, List.mem_cons, List.mem_singleton, List.not_mem_nil, or_false] at hx
  rcases hx with h | h | h | h | h | h | h | h <;> subst h <;> exact Nat.mod_lt _ (by decide)

/-- Comparing two byte strings of one length is comparing their big-endian
values, whatever value has been accumulated in front of them. -/
theorem foldl_lt_iff_keyLt : ∀ (as bs : Bytes) (x y : Nat), as.length = bs.length →
    (∀ a ∈ as, a < 256) → (∀ b ∈ bs, b < 256) →
    (as.foldl (fun acc v => acc * 256 + v) x < bs.foldl (fun acc v => acc * 256 + v) y ↔
      x < y ∨ (x = y ∧ keyLt as bs = true))
  | [], [], x, y, _, _, _ => by simp [keyLt]
  | [], _ :: _, _, _, h, _, _ => by simp at h
  | _ :: _, [], _, _, h, _, _ => by simp at h
  | a :: as, b :: bs, x, y, h, ha, hb => by
    have hlen : as.length = bs.length := by simpa using h
    have ha0 : a < 256 := ha a (List.mem_cons_self _ _)
    have hb0 : b < 256 := hb b (List.mem_cons_self _ _)
    have ih := foldl_lt_iff_keyLt as bs (x * 256 + a) (y * 256 + b) hlen
      (fun v hv => ha v (List.mem_cons_of_mem _ hv)) (fun v hv => hb v (List.mem_cons_of_mem _ hv))
    simp only [List.foldl_cons, keyLt]
    rw [ih]
    by_cases hab : a < b
    · simp only [hab, if_true]
      constructor
      · intro h1
        rcases h1 with h1 | ⟨h1, _⟩
        · by_cases hxy : x < y
          · exact Or.inl hxy
          · exact Or.inr ⟨by omega, trivial⟩
        · exact Or.inr ⟨by omega, trivial⟩
      · intro h1
        rcases h1 with h1 | ⟨h1, _⟩
        · exact Or.inl (by omega)
        · exact Or.inl (by omega)
    · by_cases hba : b < a
      · simp only [hab, hba, if_false, if_true]
        constructor
        · intro h1
          rcases h1 with h1 | ⟨h1, _⟩
          · exact Or.inl (by omega)
          · omega
        · intro h1
          rcases h1 with h1 | ⟨_, h1⟩
          · exact Or.inl (by omega)
          · exact absurd h1 (by decide)
      · have hab' : a = b := by omega
        subst hab'
        simp only [hab, if_false]
        constructor
        · intro h1
          rcases h1 with h1 | ⟨h1, h2⟩
          · exact Or.inl (by omega)
          · exact Or.inr ⟨by omega, h2⟩
        · intro h1
          rcases h1 with h1 | ⟨h1, h2⟩
          · exact Or.inl (by omega)
          · exact Or.inr ⟨by omega, h2⟩

theorem keyLt_uint64ToBytes (i j : Nat) (hi : i < 2 ^ 64) (hj : j < 2 ^ 64) :
    keyLt (uint64ToBytes i) (uint64ToBytes j) = true ↔ i < j := by
  have h := foldl_lt_iff_keyLt (uint64ToBytes i) (uint64ToBytes j) 0 0 rfl
    (uint64ToBytes_lt i) (uint64ToBytes_lt j)
  have hvi := bytesToUint64_uint64ToBytes i
  have hvj := bytesToUint64_uint64ToBytes j
  have ti : (uint64ToBytes i).take 8 = uint64ToBytes i := rfl
  have tj : (uint64ToBytes j).take 8 = uint64ToBytes j := rfl
  simp only [bytesToUint64, ti, tj] at hvi hvj
  rw [hvi, hvj, Nat.mod_eq_of_lt hi, Nat.mod_eq_of_lt hj] at h
  constructor
  · intro hk
    exact h.mpr (Or.inr ⟨rfl, hk⟩)
  · intro hlt
    rcases h.mp hlt with h1 | ⟨_, h1⟩
    · exact absurd h1 (by omega)
    · exact h1

theorem uint64ToBytes_injective (i j : Nat) (hi : i < 2 ^ 64) (hj : j < 2 ^ 64)
    (h : uint64ToBytes i = uint64ToBytes j) : i = j := by
  have := congrArg bytesToUint64 h
  rw [bytesToUint64_uint64ToBytes, bytesToUint64_uint64ToBytes,
    Nat.mod_eq_of_lt hi, Nat.mod_eq_of_lt hj] at this
  exact this

/-! ## The engine -/

theorem lookup_set (db : DB) (k v k' : Bytes) :
    (db.set k v).lookup k' = if k = k' then some v else db.lookup k' := by
  simp [DB.set, DB.lookup]

theorem lookup_append (a b : DB) (k : Bytes) :
    DB.lookup (a ++ b) k = match DB.lookup a k with
      | some v => some v
      | none => DB.lookup b k := by
  induction a with
  | nil => simp [DB.lookup]
  | cons kv rest ih =>
    obtain ⟨k', v'⟩ := kv
    simp only [List.cons_append, DB.lookup]
    by_cases h : k' = k
    · simp [h]
    · simp [h, ih]

theorem apply_eq (db : DB) (wb : Batch) : db.apply wb = wb.reverse ++ db := by
  induction wb generalizing db with
  | nil => rfl
  | cons kv rest ih =>
    simp only [DB.apply, List.foldl_cons] at ih ⊢
    rw [ih]
    simp [DB.set]

theorem lookup_filter (db : DB) (p : Bytes → Bool) (k : Bytes) :
    DB.lookup (db.filter (fun kv => p kv.1)) k = if p k then db.lookup k else none := by
  induction db with
  | nil => simp [DB.lookup]
  | cons kv rest ih =>
    obtain ⟨k', v'⟩ := kv
    by_cases hp : p k' = true
    · simp only [List.filter_cons, hp, if_true, DB.lookup]
      by_cases h : k' = k
      · subst h; simp [hp]
      · simp only [h, if_false]; exact ih
    · rw [List.filter_cons]
      simp only [hp]
      simp only [Bool.false_eq_true, if_false, DB.lookup]
      by_cases h : k' = k
      · subst h; rw [ih]; simp [hp]
      · simp only [h, if_false]; exact ih

theorem lookup_deleteRange (db : DB) (fk lk k : Bytes) :
    (db.deleteRange fk lk).lookup k =
      if keyLt k fk = false ∧ keyLt k lk = true then none else db.lookup k := by
  have := lookup_filter db (fun x => !(!keyLt x fk && keyLt x lk)) k
  simp only [DB.deleteRange]
  rw [this]
  cases keyLt k fk <;> cases keyLt k lk <;> simp

theorem lookup_isSome_iff_mem (db : DB) (k : Bytes) :
    (db.lookup k).isSome = true ↔ ∃ v, (k, v) ∈ db := by
  induction db with
  | nil => simp [DB.lookup]
  | cons kv rest ih =>
    obtain ⟨k', v'⟩ := kv
    simp only [DB.lookup]
    by_cases h : k' = k
    · subst h
      simp only [if_true, Option.isSome_some, true_iff]
      exact ⟨v', List.mem_cons_self _ _⟩
    · simp only [h, if_false, ih, List.mem_cons, Prod.mk.injEq]
      constructor
      · rintro ⟨v, hv⟩; exact ⟨v, Or.inr hv⟩
      · rintro ⟨v, hv | hv⟩
        · exact absurd hv.1.symm h
        · exact ⟨v, hv⟩

/-- `iterFirst` is `none` exactly when every key is below the bound. -/
theorem iterFirst_eq_none (db : DB) (lower : Bytes) :
    db.iterFirst lower = none ↔ ∀ kv ∈ db, keyLt kv.1 lower = true := by
  induction db with
  | nil => simp [DB.iterFirst]
  | cons kv rest ih =>
    obtain ⟨k, v⟩ := kv
    simp only [DB.iterFirst, List.mem_cons, forall_eq_or_imp]
    by_cases h : keyLt k lower = true
    · simp [h, ih]
    · simp only [h]
      cases hr : DB.iterFirst rest lower with
      | none => simp
      | some m =>
        by_cases hkm : keyLt k m = true <;> simp [hkm]

/-- What `iterFirst` finds is a stored key, not below the bound, and no stored
key that is not below the bound is smaller. -/
theorem iterFirst_eq_some (db : DB) (lower m : Bytes) (h : db.iterFirst lower = some m) :
    (∃ v, (m, v) ∈ db) ∧ keyLt m lower = false ∧
      ∀ kv ∈ db, keyLt kv.1 lower = false → keyLt kv.1 m = false := by
  induction db generalizing m with
  | nil => simp [DB.iterFirst] at h
  | cons kv rest ih =>
    obtain ⟨k, v⟩ := kv
    simp only [DB.iterFirst] at h
    by_cases hk : keyLt k lower = true
    · simp only [hk, if_true] at h
      obtain ⟨⟨v', hv'⟩, h2, h3⟩ := ih m h
      refine ⟨⟨v', List.mem_cons_of_mem _ hv'⟩, h2, ?_⟩
      intro kv hkv hlow
      rcases List.mem_cons.mp hkv with heq | hmem
      · subst heq; simp [hk] at hlow
      · exact h3 kv hmem hlow
    · have hk' : keyLt k lower = false := by simpa using hk
      simp only [hk', Bool.false_eq_true, if_false] at h
      cases hr : DB.iterFirst rest lower with
      | none =>
        rw [hr] at h
        simp only [Option.some.injEq] at h
        subst h
        refine ⟨⟨v, List.mem_cons_self _ _⟩, hk', ?_⟩
        intro kv hkv hlow
        rcases List.mem_cons.mp hkv with heq | hmem
        · subst heq; exact keyLt_irrefl _
        · have := (iterFirst_eq_none rest lower).mp hr kv hmem
          rw [this] at hlow; exact absurd hlow (by decide)
      | some m' =>
        rw [hr] at h
        obtain ⟨⟨v', hv'⟩, h2, h3⟩ := ih m' hr
        by_cases hkm : keyLt k m' = true
        · simp only [hkm, if_true, Option.some.injEq] at h
          subst h
          refine ⟨⟨v, List.mem_cons_self _ _⟩, hk', ?_⟩
          intro kv hkv hlow
          rcases List.mem_cons.mp hkv with heq | hmem
          · subst heq; exact keyLt_irrefl _
          · cases hc : keyLt kv.1 k with
            | false => rfl
            | true =>
              have := keyLt_trans _ _ _ hc hkm
              rw [h3 kv hmem hlow] at this
              exact absurd this (by decide)
        · have hkm' : keyLt k m' = false := by simpa using hkm
          simp only [hkm', Bool.false_eq_true, if_false, Option.some.injEq] at h
          subst h
          refine ⟨⟨v', List.mem_cons_of_mem _ hv'⟩, h2, ?_⟩
          intro kv hkv hlow
          rcases List.mem_cons.mp hkv with heq | hmem
          · subst heq; exact hkm'
          · exact h3 kv hmem hlow

/-! ## The adapter's reads and keys -/

theorem plainCodec_roundTrip (maxData : Nat) : (plainCodec maxData).RoundTrip := by
  intro e b out henc
  simp only [plainCodec] at henc ⊢
  split at henc
  · rename_i h
    obtain ⟨h1, h2, h3, h4⟩ := h
    simp only [Except.ok.injEq] at henc
    subst henc
    have hI := bytesToUint64_uint64ToBytes e.Index
    have hT := bytesToUint64_uint64ToBytes e.Term
    rw [Nat.mod_eq_of_lt h1] at hI
    rw [Nat.mod_eq_of_lt h2] at hT
    have t1 : (uint64ToBytes e.Index ++ uint64ToBytes e.Term ++ e.LogType :: e.Data).take 8
        = uint64ToBytes e.Index := by simp [uint64ToBytes]
    have t2 : ((uint64ToBytes e.Index ++ uint64ToBytes e.Term ++ e.LogType :: e.Data).drop 8).take 8
        = uint64ToBytes e.Term := by simp [uint64ToBytes]
    have t3 : ((uint64ToBytes e.Index ++ uint64ToBytes e.Term ++ e.LogType :: e.Data).drop 16)
        = e.LogType :: e.Data := by simp [uint64ToBytes]
    have t4 : ((uint64ToBytes e.Index ++ uint64ToBytes e.Term ++ e.LogType :: e.Data).drop 17)
        = e.Data := by simp [uint64ToBytes]
    have t5 : ¬ (uint64ToBytes e.Index ++ uint64ToBytes e.Term ++ e.LogType :: e.Data).length < 17 := by
      simp [uint64ToBytes]
    rw [if_neg t5]
    simp only [t1, t2, t3, t4, hI, hT, sameEntry, List.headD_cons, and_self]
  · simp at henc

theorem getLog_of_lookup (c : Codec) (s : PebbleKVStore) (i : Nat) (out : Log) (v : Bytes)
    (h : s.db.lookup (prefixLog ++ uint64ToBytes i) = some v) :
    s.GetLog c i out = c.decodeMsgPack v out := by
  simp only [PebbleKVStore.GetLog, DB.get, h, GetLogFrom]
  have hf : ∀ x : Option Error, FirstError x none = x := by
    intro x; cases x <;> rfl
  rw [hf]

theorem getLog_of_lookup_none (c : Codec) (s : PebbleKVStore) (i : Nat) (out : Log)
    (h : s.db.lookup (prefixLog ++ uint64ToBytes i) = none) :
    s.GetLog c i out = (some Error.ErrLogNotFound, out) := by
  simp only [PebbleKVStore.GetLog, DB.get, h, GetLogFrom]

theorem get_of_lookup (s : PebbleKVStore) (k : Bytes) :
    s.Get k = match s.db.lookup (prefixConf ++ k) with
      | some v => (some v, none)
      | none => (none, some Error.ErrKeyNotFound) := by
  simp only [PebbleKVStore.Get, DB.get]
  cases h : s.db.lookup (prefixConf ++ k) <;> simp [GetFrom, FirstError]

theorem isLogKey_iff (k : Bytes) :
    isLogKey k = true ↔ ∃ i, i < 2 ^ 64 ∧ k = prefixLog ++ uint64ToBytes i := by
  constructor
  · intro h
    simp only [isLogKey, beq_iff_eq] at h
    refine ⟨bytesToUint64 (k.drop prefixLog.length) % 2 ^ 64, Nat.mod_lt _ (by decide), ?_⟩
    rw [uint64ToBytes_mod]
    exact h
  · rintro ⟨i, hi, rfl⟩
    simp only [isLogKey, beq_iff_eq, prefixLog, List.length_singleton, List.singleton_append,
      List.drop_succ_cons, List.drop_zero]
    rw [bytesToUint64_uint64ToBytes, uint64ToBytes_mod]

theorem isConfKey_iff (k : Bytes) :
    isConfKey k = true ↔ ∃ m, k = prefixConf ++ m := by
  constructor
  · intro h
    simp only [isConfKey, beq_iff_eq] at h
    refine ⟨k.drop prefixConf.length, ?_⟩
    have := List.take_append_drop prefixConf.length k
    rw [h] at this
    exact this.symm
  · rintro ⟨m, rfl⟩
    simp [isConfKey, prefixConf]

theorem wellFormed_mem (db : DB) (h : db.wellFormed = true) (k v : Bytes) (hm : (k, v) ∈ db) :
    isLogKey k = true ∨ isConfKey k = true := by
  simp only [DB.wellFormed, List.all_eq_true, Bool.or_eq_true] at h
  exact h (k, v) hm

theorem keyLt_log_conf (i : Nat) (m : Bytes) :
    keyLt (prefixLog ++ uint64ToBytes i) (prefixConf ++ m) = true := by
  simp [prefixLog, prefixConf, keyLt]

theorem keyLt_conf_log (i : Nat) (m : Bytes) :
    keyLt (prefixConf ++ m) (prefixLog ++ uint64ToBytes i) = false := by
  simp [prefixLog, prefixConf, keyLt]

theorem keyLt_logKey (i j : Nat) (hi : i < 2 ^ 64) (hj : j < 2 ^ 64) :
    keyLt (prefixLog ++ uint64ToBytes i) (prefixLog ++ uint64ToBytes j) = true ↔ i < j := by
  rw [← keyLt_uint64ToBytes i j hi hj]
  simp [prefixLog, keyLt]

theorem keyLt_logKey_prefixLog (i : Nat) :
    keyLt (prefixLog ++ uint64ToBytes i) prefixLog = false := by
  simp [prefixLog, keyLt, uint64ToBytes]

theorem keyLt_confKey_prefixLog (m : Bytes) :
    keyLt (prefixConf ++ m) prefixLog = false := by
  simp [prefixLog, prefixConf, keyLt]

theorem logKey_injective (i j : Nat) (hi : i < 2 ^ 64) (hj : j < 2 ^ 64)
    (h : prefixLog ++ uint64ToBytes i = prefixLog ++ uint64ToBytes j) : i = j :=
  uint64ToBytes_injective i j hi hj (List.append_cancel_left h)

theorem logKey_ne_confKey (i : Nat) (m : Bytes) :
    prefixLog ++ uint64ToBytes i ≠ prefixConf ++ m := by
  simp [prefixLog, prefixConf]

theorem firstIndex_of_iterFirst_logKey (s : PebbleKVStore) (j : Nat) (hj : j < 2 ^ 64)
    (h : s.db.iterFirst prefixLog = some (prefixLog ++ uint64ToBytes j)) :
    s.FirstIndex = (j, none) := by
  simp only [PebbleKVStore.FirstIndex, h, FirstError]
  have : (prefixLog ++ uint64ToBytes j).drop prefixLog.length = uint64ToBytes j := by
    simp [prefixLog]
  rw [this, bytesToUint64_uint64ToBytes, Nat.mod_eq_of_lt hj]

/-! ## The batch of `StoreLogs` -/

/-- When some entry does not encode, the loop of `StoreLogs` stops at the first
such entry with its error. -/
theorem loop_error (c : Codec) : ∀ (logs : List Log) (wb : Batch),
    (∃ e ∈ logs, ∃ err, c.encodeMsgPack e = .error err) →
    ∃ pre ek post err, logs = pre ++ ek :: post ∧
      (∀ e ∈ pre, ∃ b, c.encodeMsgPack e = .ok b) ∧
      c.encodeMsgPack ek = .error err ∧ StoreLogs.loop c logs wb = .error err
  | [], _, h => by simp at h
  | e :: rest, wb, h => by
    cases henc : c.encodeMsgPack e with
    | error err =>
      exact ⟨[], e, rest, err, rfl, by simp, henc, by simp [StoreLogs.loop, henc]⟩
    | ok b =>
      have h' : ∃ e' ∈ rest, ∃ err, c.encodeMsgPack e' = .error err := by
        obtain ⟨e', he', err, herr⟩ := h
        rcases List.mem_cons.mp he' with heq | hmem
        · subst heq; rw [henc] at herr; cases herr
        · exact ⟨e', hmem, err, herr⟩
      obtain ⟨pre, ek, post, err, hl, hpre, hek, hloop⟩ :=
        loop_error c rest (wb.set (prefixLog ++ uint64ToBytes e.Index) b) h'
      refine ⟨e :: pre, ek, post, err, by simp [hl], ?_, hek, by simp [StoreLogs.loop, henc, hloop]⟩
      intro x hx
      rcases List.mem_cons.mp hx with heq | hmem
      · subst heq; exact ⟨b, henc⟩
      · exact hpre x hmem

/-- What a finished loop of `StoreLogs` has put in the batch, read newest
first at the key of an index: the bytes of the last entry with that index,
otherwise what the batch held before. -/
theorem loop_ok_lookup (c : Codec) : ∀ (logs : List Log) (wb wb' : Batch),
    (∀ e ∈ logs, e.Index < 2 ^ 64) → StoreLogs.loop c logs wb = .ok wb' →
    ∀ i, i < 2 ^ 64 →
      DB.lookup wb'.reverse (prefixLog ++ uint64ToBytes i) =
        match lastWithIndex logs i with
        | some e => (c.encodeMsgPack e).toOption
        | none => DB.lookup wb.reverse (prefixLog ++ uint64ToBytes i)
  | [], wb, wb', _, h, i, _ => by
    simp only [StoreLogs.loop, Except.ok.injEq] at h
    subst h
    simp [lastWithIndex]
  | e :: rest, wb, wb', hidx, h, i, hi => by
    cases henc : c.encodeMsgPack e with
    | error err => simp [StoreLogs.loop, henc] at h
    | ok b =>
      simp only [StoreLogs.loop, henc] at h
      have ih := loop_ok_lookup c rest _ wb' (fun x hx => hidx x (List.mem_cons_of_mem _ hx)) h i hi
      rw [ih]
      simp only [lastWithIndex]
      cases hl : lastWithIndex rest i with
      | some e' => rfl
      | none =>
        simp only [Batch.set, List.reverse_append, List.reverse_cons, List.reverse_nil,
          List.nil_append, List.singleton_append, DB.lookup]
        by_cases hei : e.Index = i
        · subst hei
          simp [henc, Except.toOption]
        · have hne : prefixLog ++ uint64ToBytes e.Index ≠ prefixLog ++ uint64ToBytes i :=
            fun hk => hei (logKey_injective _ _ (hidx e (List.mem_cons_self _ _)) hi hk)
          simp [hne, hei]

theorem lastWithIndex_mem : ∀ (logs : List Log) (i : Nat) (e : Log),
    lastWithIndex logs i = some e → e ∈ logs ∧ e.Index = i
  | [], _, _, h => by simp [lastWithIndex] at h
  | x :: rest, i, e, h => by
    simp only [lastWithIndex] at h
    cases hl : lastWithIndex rest i with
    | some e' =>
      rw [hl] at h
      simp only [Option.some.injEq] at h
      subst h
      have := lastWithIndex_mem rest i e' hl
      exact ⟨List.mem_cons_of_mem _ this.1, this.2⟩
    | none =>
      rw [hl] at h
      by_cases hx : x.Index = i
      · simp only [hx, if_true, Option.some.injEq] at h
        subst h
        exact ⟨List.mem_cons_self _ _, hx⟩
      · simp [hx] at h

theorem lastWithIndex_none : ∀ (logs : List Log) (i : Nat),
    lastWithIndex logs i = none ↔ ∀ e ∈ logs, e.Index ≠ i
  | [], _ => by simp [lastWithIndex]
  | x :: rest, i => by
    simp only [lastWithIndex, List.mem_cons, forall_eq_or_imp]
    cases hl : lastWithIndex rest i with
    | some e' =>
      have := lastWithIndex_mem rest i e' hl
      simp only [false_iff, not_and, reduceCtorEq]
      intro _ hall
      exact hall e' this.1 this.2
    | none =>
      have := (lastWithIndex_none rest i).mp hl
      by_cases hx : x.Index = i
      · simp [hx]
      · simp only [hx, if_false, ne_eq, not_false_eq_true, true_and, true_iff]
        exact this

theorem loop_ok_encodes (c : Codec) : ∀ (logs : List Log) (wb wb' : Batch),
    StoreLogs.loop c logs wb = .ok wb' → ∀ e ∈ logs, ∃ b, c.encodeMsgPack e = .ok b
  | [], _, _, _, e, he => by simp at he
  | x :: rest, wb, wb', h, e, he => by
    cases henc : c.encodeMsgPack x with
    | error err => simp [StoreLogs.loop, henc] at h
    | ok b =>
      simp only [StoreLogs.loop, henc] at h
      rcases List.mem_cons.mp he with heq | hmem
      · subst heq; exact ⟨b, henc⟩
      · exact loop_ok_encodes c rest _ wb' h e hmem

/-! ## The two namespaces -/

/-- Every write a finished loop of `StoreLogs` has added to the batch is a write
of a log key. -/
theorem loop_ok_keys (c : Codec) : ∀ (logs : List Log) (wb wb' : Batch),
    StoreLogs.loop c logs wb = .ok wb' →
    ∀ kv ∈ wb', kv ∈ wb ∨ ∃ e ∈ logs, kv.1 = prefixLog ++ uint64ToBytes e.Index
  | [], wb, wb', h, kv, hkv => by
    simp only [StoreLogs.loop, Except.ok.injEq] at h
    subst h
    exact Or.inl hkv
  | x :: rest, wb, wb', h, kv, hkv => by
    cases henc : c.encodeMsgPack x with
    | error err => simp [StoreLogs.loop, henc] at h
    | ok b =>
      simp only [StoreLogs.loop, henc] at h
      rcases loop_ok_keys c rest _ wb' h kv hkv with h1 | ⟨e, he, hk⟩
      · simp only [Batch.set, List.mem_append, List.mem_singleton] at h1
        rcases h1 with h1 | h1
        · exact Or.inl h1
        · exact Or.inr ⟨x, List.mem_cons_self _ _, by rw [h1]⟩
      · exact Or.inr ⟨e, List.mem_cons_of_mem _ he, hk⟩

theorem lookup_eq_none_of_not_mem (db : DB) (k : Bytes) (h : ∀ kv ∈ db, kv.1 ≠ k) :
    db.lookup k = none := by
  cases hl : db.lookup k with
  | none => rfl
  | some v =>
    have : (db.lookup k).isSome = true := by rw [hl]; rfl
    obtain ⟨v', hv'⟩ := (lookup_isSome_iff_mem db k).mp this
    exact absurd rfl (h _ hv')

/-- The writes of the log store leave every metadata key as it was. -/
theorem step_lookup_conf (c : Codec) (s : PebbleKVStore) (op : Op) (k : Bytes)
    (h : op.setsKey k = false) :
    (s.step c op).db.lookup (prefixConf ++ k) = s.db.lookup (prefixConf ++ k) := by
  cases op with
  | storeLog log =>
    simp only [PebbleKVStore.step, PebbleKVStore.StoreLog, PebbleKVStore.storeLog]
    cases henc : c.encodeMsgPack log with
    | error err => rfl
    | ok b =>
      simp only [lookup_set]
      rw [if_neg (logKey_ne_confKey _ _)]
  | storeLogs logs =>
    simp only [PebbleKVStore.step, PebbleKVStore.StoreLogs]
    cases hloop : StoreLogs.loop c logs [] with
    | error err => rfl
    | ok wb =>
      simp only [apply_eq, lookup_append]
      have : DB.lookup wb.reverse (prefixConf ++ k) = none := by
        apply lookup_eq_none_of_not_mem
        intro kv hkv
        rcases loop_ok_keys c logs [] wb hloop kv (List.mem_reverse.mp hkv) with h1 | ⟨e, _, hk⟩
        · simp at h1
        · rw [hk]; exact logKey_ne_confKey _ _
      rw [this]
  | deleteRange min max =>
    simp only [PebbleKVStore.step, PebbleKVStore.DeleteRange, lookup_deleteRange,
      keyLt_conf_log]
    simp
  | set key val =>
    simp only [Op.setsKey, beq_eq_false_iff_ne, ne_eq] at h
    simp only [PebbleKVStore.step, PebbleKVStore.Set, lookup_set]
    rw [if_neg (by simpa [prefixConf] using h)]
  | setUint64 key val =>
    simp only [Op.setsKey, beq_eq_false_iff_ne, ne_eq] at h
    simp only [PebbleKVStore.step, PebbleKVStore.SetUint64, PebbleKVStore.Set, lookup_set]
    rw [if_neg (by simpa [prefixConf] using h)]

theorem run_lookup_conf (c : Codec) (ops : List Op) (k : Bytes) :
    ∀ (s : PebbleKVStore), (∀ op ∈ ops, op.setsKey k = false) →
      (s.run c ops).db.lookup (prefixConf ++ k) = s.db.lookup (prefixConf ++ k) := by
  induction ops with
  | nil => intro s _; rfl
  | cons op rest ih =>
    intro s h
    simp only [PebbleKVStore.run, List.foldl_cons]
    have := ih (s.step c op) (fun o ho => h o (List.mem_cons_of_mem _ ho))
    simp only [PebbleKVStore.run] at this
    rw [this, step_lookup_conf c s op k (h op (List.mem_cons_self _ _))]

/-! ## Reachable stores and range deletion -/

theorem isLogKey_logKey (i : Nat) : isLogKey (prefixLog ++ uint64ToBytes i) = true :=
  (isLogKey_iff _).mpr ⟨i % 2 ^ 64, Nat.mod_lt _ (by decide), by rw [uint64ToBytes_mod]⟩

theorem isConfKey_confKey (k : Bytes) : isConfKey (prefixConf ++ k) = true :=
  (isConfKey_iff _).mpr ⟨k, rfl⟩

theorem wellFormed_iff (db : DB) :
    db.wellFormed = true ↔ ∀ kv ∈ db, isLogKey kv.1 = true ∨ isConfKey kv.1 = true := by
  simp [DB.wellFormed, List.all_eq_true]

/-- Every call of the adapter keeps the engine's keys inside the two
namespaces. -/
theorem wellFormed_step (c : Codec) (s : PebbleKVStore) (op : Op)
    (h : s.db.wellFormed = true) : (s.step c op).db.wellFormed = true := by
  rw [wellFormed_iff] at h ⊢
  cases op with
  | storeLog log =>
    simp only [PebbleKVStore.step, PebbleKVStore.StoreLog, PebbleKVStore.storeLog]
    cases henc : c.encodeMsgPack log with
    | error err => exact h
    | ok b =>
      intro kv hkv
      rcases List.mem_cons.mp hkv with heq | hmem
      · subst heq; exact Or.inl (isLogKey_logKey _)
      · exact h kv hmem
  | storeLogs logs =>
    simp only [PebbleKVStore.step, PebbleKVStore.StoreLogs]
    cases hloop : StoreLogs.loop c logs [] with
    | error err => exact h
    | ok wb =>
      simp only [apply_eq]
      intro kv hkv
      rcases List.mem_append.mp hkv with h1 | h1
      · rcases loop_ok_keys c logs [] wb hloop kv (List.mem_reverse.mp h1) with h2 | ⟨e, _, hk⟩
        · simp at h2
        · rw [hk]; exact Or.inl (isLogKey_logKey _)
      · exact h kv h1
  | deleteRange min max =>
    simp only [PebbleKVStore.step, PebbleKVStore.DeleteRange, DB.deleteRange]
    intro kv hkv
    exact h kv (List.mem_filter.mp hkv).1
  | set key val =>
    simp only [PebbleKVStore.step, PebbleKVStore.Set]
    intro kv hkv
    rcases List.mem_cons.mp hkv with heq | hmem
    · subst heq; exact Or.inr (isConfKey_confKey _)
    · exact h kv hmem
  | setUint64 key val =>
    simp only [PebbleKVStore.step, PebbleKVStore.SetUint64, PebbleKVStore.Set]
    intro kv hkv
    rcases List.mem_cons.mp hkv with heq | hmem
    · subst heq; exact Or.inr (isConfKey_confKey _)
    · exact h kv hmem

/-- Every store reached from a freshly opened one by calls of the adapter is
well formed. -/
theorem wellFormed_run (c : Codec) (ops : List Op) :
    ∀ (s : PebbleKVStore), s.db.wellFormed = true → (s.run c ops).db.wellFormed = true := by
  induction ops with
  | nil => intro s h; exact h
  | cons op rest ih =>
    intro s h
    simp only [PebbleKVStore.run, List.foldl_cons]
    exact ih _ (wellFormed_step c s op h)

/-- Below the largest index `DeleteRange` is inclusive and exact: with
`max + 1 < 2 ^ 64` the entries from `min` to `max` are gone and every other
entry reads as before. -/
theorem deleteRange_getLog_of_lt (c : Codec) (s : PebbleKVStore) (min max : Nat)
    (hmin : min ≤ max) (hmax : max + 1 < 2 ^ 64) (i : Nat) (hi : i < 2 ^ 64) (out : Log) :
    (s.DeleteRange min max).2.GetLog c i out =
      if min ≤ i ∧ i ≤ max then (some Error.ErrLogNotFound, out) else s.GetLog c i out := by
  have h1 : keyLt (prefixLog ++ uint64ToBytes i) (prefixLog ++ uint64ToBytes min) = false ↔ min ≤ i := by
    rw [← Bool.not_eq_true, keyLt_logKey i min hi (by omega)]
    omega
  have h2 : keyLt (prefixLog ++ uint64ToBytes i)
      (prefixLog ++ uint64ToBytes ((max + 1) % 2 ^ 64)) = true ↔ i ≤ max := by
    rw [Nat.mod_eq_of_lt hmax, keyLt_logKey i (max + 1) hi hmax]
    omega
  have hl : (s.DeleteRange min max).2.db.lookup (prefixLog ++ uint64ToBytes i) =
      if min ≤ i ∧ i ≤ max then none else s.db.lookup (prefixLog ++ uint64ToBytes i) := by
    simp only [PebbleKVStore.DeleteRange, lookup_deleteRange, h1, h2]
  by_cases hr : min ≤ i ∧ i ≤ max
  · rw [if_pos hr] at hl ⊢
    exact getLog_of_lookup_none c _ i out hl
  · rw [if_neg hr] at hl ⊢
    simp only [PebbleKVStore.GetLog, DB.get, hl]

/-! ## The claims -/

/-- Claim C1: for every store and every entry `e`, with a codec that decodes
what it encoded, `GetLog(e.Index)` after a successful `StoreLog(e)` returns a
nil error and an entry equal to `e` in `Index`, `Term`, `Type` and `Data`,
whatever the destination held before. -/
theorem storeLog_getLog_roundtrip (c : Codec) (hc : c.RoundTrip) (s : PebbleKVStore)
    (e out : Log) (hok : (s.StoreLog c e).1 = none) :
    ((s.StoreLog c e).2.GetLog c e.Index out).1 = none ∧
      sameEntry ((s.StoreLog c e).2.GetLog c e.Index out).2 e := by
  simp only [PebbleKVStore.StoreLog, PebbleKVStore.storeLog] at hok ⊢
  cases henc : c.encodeMsgPack e with
  | error err => simp [henc] at hok
  | ok b =>
    simp only [henc]
    rw [getLog_of_lookup c _ e.Index out b (by simp [lookup_set])]
    exact hc e b out henc

/-- Claim C1 at the entry of the test of `StoreLog`: index 1, term 0, payload
"log1", stored in a freshly opened store. -/
theorem storeLog_getLog_roundtrip_witness :
    ((PebbleKVStore.fresh.StoreLog (plainCodec 16) ⟨1, 0, 0, [108, 111, 103, 49], []⟩).2.GetLog
        (plainCodec 16) 1 newLog).1 = none ∧
      sameEntry ((PebbleKVStore.fresh.StoreLog (plainCodec 16)
        ⟨1, 0, 0, [108, 111, 103, 49], []⟩).2.GetLog (plainCodec 16) 1 newLog).2
        ⟨1, 0, 0, [108, 111, 103, 49], []⟩ :=
  storeLog_getLog_roundtrip (plainCodec 16) (plainCodec_roundTrip 16) PebbleKVStore.fresh
    ⟨1, 0, 0, [108, 111, 103, 49], []⟩ newLog (by decide)

/-- Claim C2, the code at the largest index: with an entry stored at index 7,
`DeleteRange(5, 2^64-1)` returns nil and `GetLog(7)` still returns the entry:
`max+1` wraps to 0, the upper key lies below the lower key and the engine
removes nothing. -/
theorem deleteRange_max_uint64_removes_nothing :
    ((PebbleKVStore.fresh.StoreLog (plainCodec 16) ⟨7, 1, 0, [108], []⟩).2.DeleteRange
        5 (2 ^ 64 - 1)).1 = none ∧
      ((PebbleKVStore.fresh.StoreLog (plainCodec 16) ⟨7, 1, 0, [108], []⟩).2.DeleteRange
        5 (2 ^ 64 - 1)).2.GetLog (plainCodec 16) 7 newLog = (none, ⟨7, 1, 0, [108], []⟩) := by
  decide

/-- Claim C3, the code with a metadata record: after `StoreLogs` of the entries
1, 2, 3 and `SetUint64("raftterm", 5)`, `LastIndex` returns the eight bytes of
the metadata key read as an index, with a nil error, and not 3. -/
theorem lastIndex_reads_metadata_key :
    (PebbleKVStore.fresh.run (plainCodec 16)
        [.storeLogs testLogs, .setUint64 termKey 5]).LastIndex
      = (8241981443419763309, none) ∧
    (PebbleKVStore.fresh.run (plainCodec 16)
        [.storeLogs testLogs, .setUint64 termKey 5]).hasLog 3 = true ∧
    (PebbleKVStore.fresh.run (plainCodec 16)
        [.storeLogs testLogs, .setUint64 termKey 5]).hasLog 8241981443419763309 = false := by
  decide

/-- Claim C4: for every well-formed store (every key a log key or a metadata
key, as in every store the adapter builds) that holds a log entry, `FirstIndex`
returns a nil error and the smallest index among the stored log entries,
whatever metadata records are stored. -/
theorem firstIndex_is_min (s : PebbleKVStore) (hwf : s.db.wellFormed = true)
    (i : Nat) (hlog : s.hasLog i = true) :
    ∃ m, s.FirstIndex = (m, none) ∧ m < 2 ^ 64 ∧ s.hasLog m = true ∧
      ∀ j, j < 2 ^ 64 → s.hasLog j = true → m ≤ j := by
  obtain ⟨vi, hvi⟩ := (lookup_isSome_iff_mem _ _).mp hlog
  cases hf : s.db.iterFirst prefixLog with
  | none =>
    have := (iterFirst_eq_none _ _).mp hf _ hvi
    rw [keyLt_logKey_prefixLog] at this
    exact absurd this (by decide)
  | some k =>
    obtain ⟨⟨v, hv⟩, _, hmin⟩ := iterFirst_eq_some _ _ _ hf
    have hik := hmin _ hvi (keyLt_logKey_prefixLog i)
    rcases wellFormed_mem _ hwf k v hv with hk | hk
    · obtain ⟨m, hm, rfl⟩ := (isLogKey_iff k).mp hk
      refine ⟨m, firstIndex_of_iterFirst_logKey s m hm hf, hm,
        (lookup_isSome_iff_mem _ _).mpr ⟨v, hv⟩, ?_⟩
      intro j hj hjlog
      obtain ⟨vj, hvj⟩ := (lookup_isSome_iff_mem _ _).mp hjlog
      have hjk := hmin _ hvj (keyLt_logKey_prefixLog j)
      by_contra hlt
      have : j < m := by omega
      rw [(keyLt_logKey j m hj hm).mpr this] at hjk
      exact absurd hjk (by decide)
    · obtain ⟨m, rfl⟩ := (isConfKey_iff k).mp hk
      simp only at hik
      rw [keyLt_log_conf] at hik
      exact absurd hik (by decide)

/-- Claim C4 at the store of the tests with a metadata record added: the
entries 1, 2, 3 and `SetUint64("raftterm", 5)`. -/
theorem firstIndex_is_min_witness :
    ∃ m, (PebbleKVStore.fresh.run (plainCodec 16)
        [.storeLogs testLogs, .setUint64 termKey 5]).FirstIndex = (m, none) ∧ m < 2 ^ 64 ∧
      (PebbleKVStore.fresh.run (plainCodec 16)
        [.storeLogs testLogs, .setUint64 termKey 5]).hasLog m = true ∧
      ∀ j, j < 2 ^ 64 → (PebbleKVStore.fresh.run (plainCodec 16)
        [.storeLogs testLogs, .setUint64 termKey 5]).hasLog j = true → m ≤ j :=
  firstIndex_is_min
    (PebbleKVStore.fresh.run (plainCodec 16) [.storeLogs testLogs, .setUint64 termKey 5])
    (by decide) 3 (by decide)

/-- Claim C5, the code with only a metadata record: after
`SetUint64("raftterm", 5)` on a freshly opened store the LOG namespace is
empty, yet `FirstIndex` and `LastIndex` return the eight bytes of the metadata
key read as an index, with a nil error, and not 0 with the not-found error. -/
theorem empty_log_with_metadata_reads_metadata_key :
    (PebbleKVStore.fresh.SetUint64 termKey 5).2.FirstIndex = (8241981443419763309, none) ∧
    (PebbleKVStore.fresh.SetUint64 termKey 5).2.LastIndex = (8241981443419763309, none) ∧
    (PebbleKVStore.fresh.SetUint64 termKey 5).2.db.all (fun kv => !isLogKey kv.1) = true := by
  decide

/-- Claim C6, the code on a freshly opened store: `FirstIndex` returns index 0
with `ErrFirstIndexKeyNotFound` and `LastIndex` returns index 0 with
`ErrLastIndexKeyNotFound`; neither returns the nil error that the tests
assert there. -/
theorem fresh_store_index_not_found :
    PebbleKVStore.fresh.FirstIndex = (0, some Error.ErrFirstIndexKeyNotFound) ∧
    PebbleKVStore.fresh.LastIndex = (0, some Error.ErrLastIndexKeyNotFound) ∧
    PebbleKVStore.fresh.FirstIndex ≠ (0, none) ∧
    PebbleKVStore.fresh.LastIndex ≠ (0, none) := by
  decide

/-- Claim C7: when encoding some entry of the list fails, `StoreLogs` returns
the encoding error of the first entry that does not encode and leaves the store
as it was: `GetLog`, `FirstIndex`, `LastIndex` and `Get` return what they
returned before the call, so no entry of the list becomes visible. -/
theorem storeLogs_encoding_failure_atomic (c : Codec) (s : PebbleKVStore) (logs : List Log)
    (hfail : ∃ e ∈ logs, ∃ err, c.encodeMsgPack e = .error err) :
    (∃ pre ek post err, logs = pre ++ ek :: post ∧
        (∀ e ∈ pre, ∃ b, c.encodeMsgPack e = .ok b) ∧
        c.encodeMsgPack ek = .error err ∧ (s.StoreLogs c logs).1 = some err) ∧
      (s.StoreLogs c logs).2 = s ∧
      (∀ i out, (s.StoreLogs c logs).2.GetLog c i out = s.GetLog c i out) ∧
      (s.StoreLogs c logs).2.FirstIndex = s.FirstIndex ∧
      (s.StoreLogs c logs).2.LastIndex = s.LastIndex ∧
      (∀ k, (s.StoreLogs c logs).2.Get k = s.Get k) := by
  obtain ⟨pre, ek, post, err, hl, hpre, hek, hloop⟩ := loop_error c logs [] hfail
  have h2 : (s.StoreLogs c logs).2 = s := by
    simp [PebbleKVStore.StoreLogs, hloop]
  refine ⟨⟨pre, ek, post, err, hl, hpre, hek, ?_⟩, h2, ?_, ?_, ?_, ?_⟩
  · simp [PebbleKVStore.StoreLogs, hloop, FirstError]
  · intro i out; rw [h2]
  · rw [h2]
  · rw [h2]
  · intro k; rw [h2]

/-- Claim C7 at a batch of three entries whose second has a payload the codec
refuses, on a store that already holds the entries of the tests. -/
theorem storeLogs_encoding_failure_atomic_witness :
    ((PebbleKVStore.fresh.StoreLogs (plainCodec 4) testLogs).2.StoreLogs (plainCodec 4)
        [⟨4, 1, 0, [108], []⟩, ⟨5, 1, 0, [1, 2, 3, 4, 5], []⟩, ⟨6, 1, 0, [], []⟩]).1
      = some (Error.codecFault 1) ∧
    ((PebbleKVStore.fresh.StoreLogs (plainCodec 4) testLogs).2.StoreLogs (plainCodec 4)
        [⟨4, 1, 0, [108], []⟩, ⟨5, 1, 0, [1, 2, 3, 4, 5], []⟩, ⟨6, 1, 0, [], []⟩]).2
      = (PebbleKVStore.fresh.StoreLogs (plainCodec 4) testLogs).2 ∧
    ((PebbleKVStore.fresh.StoreLogs (plainCodec 4) testLogs).2.StoreLogs (plainCodec 4)
        [⟨4, 1, 0, [108], []⟩, ⟨5, 1, 0, [1, 2, 3, 4, 5], []⟩, ⟨6, 1, 0, [], []⟩]).2.GetLog
          (plainCodec 4) 4 newLog = (some Error.ErrLogNotFound, newLog) :=
  have h := storeLogs_encoding_failure_atomic (plainCodec 4)
    (PebbleKVStore.fresh.StoreLogs (plainCodec 4) testLogs).2
    [⟨4, 1, 0, [108], []⟩, ⟨5, 1, 0, [1, 2, 3, 4, 5], []⟩, ⟨6, 1, 0, [], []⟩]
    ⟨⟨5, 1, 0, [1, 2, 3, 4, 5], []⟩, by decide, Error.codecFault 1, by simp [plainCodec]⟩
  ⟨by decide, h.2.1, by rw [h.2.2.1 4 newLog]; decide⟩

/-- Claim C8: after a successful `StoreLogs` of entries with `uint64` indices,
`GetLog(i)` returns, for an index `i` that occurs in the list, the last entry
of the list whose `Index` is `i` (a nil error and an entry equal to it in
`Index`, `Term`, `Type` and `Data`, with a codec that decodes what it encoded),
and for every other index what it returned before the call. -/
theorem storeLogs_getLog_in_order (c : Codec) (hc : c.RoundTrip) (s : PebbleKVStore)
    (logs : List Log) (hidx : ∀ e ∈ logs, e.Index < 2 ^ 64)
    (hok : (s.StoreLogs c logs).1 = none) (i : Nat) (hi : i < 2 ^ 64) (out : Log) :
    (∀ e, lastWithIndex logs i = some e →
        ((s.StoreLogs c logs).2.GetLog c i out).1 = none ∧
          sameEntry ((s.StoreLogs c logs).2.GetLog c i out).2 e) ∧
      (lastWithIndex logs i = none →
        (s.StoreLogs c logs).2.GetLog c i out = s.GetLog c i out) := by
  cases hloop : StoreLogs.loop c logs [] with
  | error err => simp [PebbleKVStore.StoreLogs, hloop, FirstError] at hok
  | ok wb =>
    have h2 : (s.StoreLogs c logs).2 = ⟨wb.reverse ++ s.db⟩ := by
      simp [PebbleKVStore.StoreLogs, hloop, apply_eq]
    have hlk := loop_ok_lookup c logs [] wb hidx hloop i hi
    rw [h2]
    constructor
    · intro e he
      rw [he] at hlk
      dsimp only at hlk
      obtain ⟨hmem, _⟩ := lastWithIndex_mem logs i e he
      obtain ⟨b, hb⟩ := loop_ok_encodes c logs [] wb hloop e hmem
      rw [hb] at hlk
      rw [getLog_of_lookup c _ i out b (by simp only [lookup_append, hlk, Except.toOption])]
      exact hc e b out hb
    · intro hnone
      rw [hnone] at hlk
      dsimp only at hlk
      simp only [List.reverse_nil, DB.lookup] at hlk
      simp only [PebbleKVStore.GetLog, DB.get, lookup_append, hlk]

/-- Claim C8 at a batch that writes index 1 twice, on a store that already
holds the entries of the tests: index 1 reads back the later entry. -/
theorem storeLogs_getLog_in_order_witness :
    (∀ e, lastWithIndex
          [⟨1, 2, 0, [97], []⟩, ⟨4, 2, 0, [98], []⟩, ⟨1, 3, 0, [99], []⟩] 1 = some e →
        (((PebbleKVStore.fresh.StoreLogs (plainCodec 16) testLogs).2.StoreLogs (plainCodec 16)
            [⟨1, 2, 0, [97], []⟩, ⟨4, 2, 0, [98], []⟩, ⟨1, 3, 0, [99], []⟩]).2.GetLog
              (plainCodec 16) 1 newLog).1 = none ∧
          sameEntry (((PebbleKVStore.fresh.StoreLogs (plainCodec 16) testLogs).2.StoreLogs
            (plainCodec 16)
            [⟨1, 2, 0, [97], []⟩, ⟨4, 2, 0, [98], []⟩, ⟨1, 3, 0, [99], []⟩]).2.GetLog
              (plainCodec 16) 1 newLog).2 e) ∧
      (lastWithIndex
          [⟨1, 2, 0, [97], []⟩, ⟨4, 2, 0, [98], []⟩, ⟨1, 3, 0, [99], []⟩] 1 = none →
        ((PebbleKVStore.fresh.StoreLogs (plainCodec 16) testLogs).2.StoreLogs (plainCodec 16)
            [⟨1, 2, 0, [97], []⟩, ⟨4, 2, 0, [98], []⟩, ⟨1, 3, 0, [99], []⟩]).2.GetLog
              (plainCodec 16) 1 newLog
          = (PebbleKVStore.fresh.StoreLogs (plainCodec 16) testLogs).2.GetLog
              (plainCodec 16) 1 newLog) :=
  storeLogs_getLog_in_order (plainCodec 16) (plainCodec_roundTrip 16)
    (PebbleKVStore.fresh.StoreLogs (plainCodec 16) testLogs).2
    [⟨1, 2, 0, [97], []⟩, ⟨4, 2, 0, [98], []⟩, ⟨1, 3, 0, [99], []⟩]
    (by decide) (by decide) 1 (by decide) newLog

/-- Claim C9: a point-lookup miss is the namespace's not-found error: for every
store and every index at which no log entry is stored, `GetLog` returns
`raft.ErrLogNotFound` and leaves the destination alone (the codec is not
called), and for every key that no call of `Set` or `SetUint64` has written
since the store was opened, `Get` returns `ErrKeyNotFound`, whatever other
calls were made. -/
theorem point_miss_is_not_found (c : Codec) (s : PebbleKVStore) (i : Nat) (out : Log)
    (ops : List Op) (k : Bytes)
    (hlog : s.hasLog i = false) (hset : ∀ op ∈ ops, op.setsKey k = false) :
    s.GetLog c i out = (some Error.ErrLogNotFound, out) ∧
      (PebbleKVStore.fresh.run c ops).Get k = (none, some Error.ErrKeyNotFound) := by
  constructor
  · apply getLog_of_lookup_none
    simp only [PebbleKVStore.hasLog] at hlog
    cases hl : s.db.lookup (prefixLog ++ uint64ToBytes i) with
    | none => rfl
    | some v => rw [hl] at hlog; simp at hlog
  · rw [get_of_lookup, run_lookup_conf c ops k _ hset]
    rfl

/-- Claim C9 at the store of the tests: index 4 is not stored, and the key
"bad" is not written by a run that stores logs, writes another key and
deletes a range. -/
theorem point_miss_is_not_found_witness :
    (PebbleKVStore.fresh.StoreLogs (plainCodec 16) testLogs).2.GetLog (plainCodec 16) 4 newLog
        = (some Error.ErrLogNotFound, newLog) ∧
      (PebbleKVStore.fresh.run (plainCodec 16)
        [.storeLogs testLogs, .setUint64 termKey 5, .deleteRange 1 2]).Get [98, 97, 100]
        = (none, some Error.ErrKeyNotFound) :=
  point_miss_is_not_found (plainCodec 16)
    (PebbleKVStore.fresh.StoreLogs (plainCodec 16) testLogs).2 4 newLog
    [.storeLogs testLogs, .setUint64 termKey 5, .deleteRange 1 2] [98, 97, 100]
    (by decide) (by decide)

/-- Claim C10, the code on an engine fault: when the engine's point get
returns a nil value with an error that is not its not-found error, `GetLog`
returns `raft.ErrLogNotFound` and `Get` returns `ErrKeyNotFound`: the engine's
error is dropped. -/
theorem engine_fault_reported_as_not_found (c : Codec) (out : Log) (code : Nat) :
    GetLogFrom c ⟨none, none, some (Error.engineFault code)⟩ out
        = (some Error.ErrLogNotFound, out) ∧
      GetFrom ⟨none, none, some (Error.engineFault code)⟩
        = (none, some Error.ErrKeyNotFound) :=
  ⟨rfl, rfl⟩

/-! ## Further lemmas: the byte order, the conversions and `New` -/

theorem toInt64_mod (u : Nat) : toInt64 (u % 2 ^ 64) = toInt64 u := by
  simp only [toInt64, Nat.mod_mod]

theorem toInt64_of_lt (u : Nat) (h : u < 2 ^ 63) : toInt64 u = (u : Int) := by
  have h1 : u % 2 ^ 64 = u := Nat.mod_eq_of_lt (by omega)
  simp only [toInt64, h1, if_pos h]

theorem levelLoop_eq (config : RaftLogRocksDBConfig) : ∀ (n sz : Nat) (acc : List LevelOptions),
    New.levelLoop config n sz acc = acc ++ (List.range n).map (fun l =>
      ({ Compression := Compression.NoCompression
         BlockSize := toInt64 config.KVBlockSize
         TargetFileSize :=
           toInt64 (sz * config.KVTargetFileSizeMultiplier ^ l % 2 ^ 64) } : LevelOptions))
  | 0, sz, acc => by simp [New.levelLoop]
  | n + 1, sz, acc => by
    rw [New.levelLoop, levelLoop_eq config n, List.range_succ_eq_map, List.map_cons,
      List.map_map, List.append_assoc, List.singleton_append]
    congr 2
    · simp only [pow_zero, Nat.mul_one, toInt64_mod]
    · apply List.map_congr_left
      intro l _
      simp only [Function.comp, pow_succ]
      congr 2
      rw [Nat.mod_mul_mod]
      ring_nf

/-- A non-nil `pebbleOptions` is what `New` opens the engine with. -/
theorem New_opts_of_pebbleOptions (os : List KVOption) (p : PebbleOptions)
    (h : (getOptions os).pebbleOptions = some p) : (New os).opts = p := by
  simp only [New, h]

/-- Without `pebbleOptions` the levels `New` opens the engine with are the ones
its loop derives from the profile. -/
theorem New_levels_of_profile (os : List KVOption) (h : (getOptions os).pebbleOptions = none) :
    (New os).opts.Levels = New.levels (getOptions os).config := by
  simp only [New, h]

/-- The floor of 95%: an integer is at least `⌊19 p / 20⌋` exactly when it is
above `0.95 p - 1`. -/
theorem ge_floor_iff (m p : Nat) : m ≥ p * 19 / 20 ↔ (m : ℚ) + 1 > (p : ℚ) * (95 / 100) := by
  have h1 : m ≥ p * 19 / 20 ↔ 19 * p < 20 * m + 20 := by omega
  rw [h1]
  constructor
  · intro h
    have : ((19 * p : ℕ) : ℚ) < ((20 * m + 20 : ℕ) : ℚ) := by exact_mod_cast h
    push_cast at this
    linarith
  · intro h
    have : ((19 * p : ℕ) : ℚ) < ((20 * m + 20 : ℕ) : ℚ) := by
      push_cast
      linarith
    exact_mod_cast this

theorem keyLt_iff_lt : ∀ (a b : Bytes), keyLt a b = true ↔ List.lt a b
  | [], [] => by
    simp only [keyLt, Bool.false_eq_true, false_iff]
    intro h; cases h
  | [], _ :: _ => by
    simp only [keyLt, true_iff]
    exact List.lt.nil _ _
  | _ :: _, [] => by
    simp only [keyLt, Bool.false_eq_true, false_iff]
    intro h; cases h
  | x :: xs, y :: ys => by
    have ih := keyLt_iff_lt xs ys
    simp only [keyLt]
    constructor
    · intro h
      by_cases hxy : x < y
      · exact List.lt.head _ _ hxy
      · by_cases hyx : y < x
        · simp [hxy, hyx] at h
        · simp only [hxy, hyx, if_false] at h
          exact List.lt.tail hxy hyx (ih.mp h)
    · intro h
      cases h with
      | head _ _ hxy => simp [hxy]
      | tail hxy hyx hrest => simp only [hxy, hyx, if_false]; exact ih.mpr hrest

/-- A write of a metadata key leaves every log key as it was. -/
theorem set_lookup_log (s : PebbleKVStore) (key val : Bytes) (i : Nat) :
    (s.Set key val).2.db.lookup (prefixLog ++ uint64ToBytes i)
      = s.db.lookup (prefixLog ++ uint64ToBytes i) := by
  simp only [PebbleKVStore.Set, lookup_set]
  rw [if_neg (fun h => logKey_ne_confKey i key h.symm)]

/-- Claim C11: point lookups of one namespace do not see writes of the other:
for every store, metadata key `k` (whatever its bytes) and index `i`,
`StoreLog`, `StoreLogs` and `DeleteRange(min, max)` leave the result of
`Get(k)` unchanged, and `Set` and `SetUint64` of any key leave the result of
`GetLog(i)` unchanged. -/
theorem namespaces_independent (c : Codec) (s : PebbleKVStore) (k : Bytes) (i : Nat)
    (log out : Log) (logs : List Log) (min max : Nat) (key val : Bytes) (x : Nat) :
    (s.StoreLog c log).2.Get k = s.Get k ∧
      (s.StoreLogs c logs).2.Get k = s.Get k ∧
      (s.DeleteRange min max).2.Get k = s.Get k ∧
      (s.Set key val).2.GetLog c i out = s.GetLog c i out ∧
      (s.SetUint64 key x).2.GetLog c i out = s.GetLog c i out := by
  refine ⟨?_, ?_, ?_, ?_, ?_⟩
  · have h := step_lookup_conf c s (.storeLog log) k rfl
    simp only [PebbleKVStore.step] at h
    rw [get_of_lookup, get_of_lookup, h]
  · have h := step_lookup_conf c s (.storeLogs logs) k rfl
    simp only [PebbleKVStore.step] at h
    rw [get_of_lookup, get_of_lookup, h]
  · have h := step_lookup_conf c s (.deleteRange min max) k rfl
    simp only [PebbleKVStore.step] at h
    rw [get_of_lookup, get_of_lookup, h]
  · simp only [PebbleKVStore.GetLog, DB.get, set_lookup_log]
  · simp only [PebbleKVStore.SetUint64, PebbleKVStore.GetLog, DB.get, set_lookup_log]

/-- Claim C12: for every store, key `k` and `uint64` value `x`, `SetUint64(k, x)`
succeeds and `GetUint64(k)` called after it returns `(x, nil)`. -/
theorem setUint64_getUint64_roundtrip (s : PebbleKVStore) (k : Bytes) (x : Nat)
    (hx : x < 2 ^ 64) :
    (s.SetUint64 k x).1 = none ∧ (s.SetUint64 k x).2.GetUint64 k = (x, none) := by
  constructor
  · rfl
  · have hl : (s.SetUint64 k x).2.db.lookup (prefixConf ++ k) = some (uint64ToBytes x) := by
      simp [PebbleKVStore.SetUint64, PebbleKVStore.Set, lookup_set]
    simp only [PebbleKVStore.GetUint64, get_of_lookup, hl, Option.getD_some]
    rw [bytesToUint64_uint64ToBytes, Nat.mod_eq_of_lt hx]

/-- Claim C12 at the values of the test (key "abc", value 123) and of the
spec's scenario (key "term", value 111), the second on a store that already
holds the first. -/
theorem setUint64_getUint64_roundtrip_witness :
    ((PebbleKVStore.fresh.SetUint64 [97, 98, 99] 123).1 = none ∧
      (PebbleKVStore.fresh.SetUint64 [97, 98, 99] 123).2.GetUint64 [97, 98, 99] = (123, none)) ∧
    (((PebbleKVStore.fresh.SetUint64 [97, 98, 99] 123).2.SetUint64 [116, 101, 114, 109] 111).1
        = none ∧
      ((PebbleKVStore.fresh.SetUint64 [97, 98, 99] 123).2.SetUint64
        [116, 101, 114, 109] 111).2.GetUint64 [116, 101, 114, 109] = (111, none)) :=
  ⟨setUint64_getUint64_roundtrip PebbleKVStore.fresh [97, 98, 99] 123 (by decide),
   setUint64_getUint64_roundtrip (PebbleKVStore.fresh.SetUint64 [97, 98, 99] 123).2
     [116, 101, 114, 109] 111 (by decide)⟩

/-- Claim C13: key order is index order: for all `uint64` indices `i` and `j`,
`logKey i` is below `logKey j` in the engine's byte order, which is the
lexicographic order of lists, exactly when `i < j`; hence `logKey` is
injective. -/
theorem logKey_order_is_index_order (i j : Nat) (hi : i < 2 ^ 64) (hj : j < 2 ^ 64) :
    (keyLt (logKey i) (logKey j) = true ↔ i < j) ∧
      (List.lt (logKey i) (logKey j) ↔ i < j) ∧
      (logKey i = logKey j → i = j) := by
  have h := keyLt_logKey i j hi hj
  refine ⟨h, ?_, ?_⟩
  · rw [← keyLt_iff_lt]; exact h
  · exact logKey_injective i j hi hj

/-- Claim C13 at two indices that differ only in their low byte and at two
that differ in their high byte. -/
theorem logKey_order_is_index_order_witness :
    ((keyLt (logKey 255) (logKey 256) = true ↔ 255 < 256) ∧
      (List.lt (logKey 255) (logKey 256) ↔ 255 < 256) ∧
      (logKey 255 = logKey 256 → 255 = 256)) ∧
    ((keyLt (logKey (2 ^ 64 - 1)) (logKey 1) = true ↔ 2 ^ 64 - 1 < 1) ∧
      (List.lt (logKey (2 ^ 64 - 1)) (logKey 1) ↔ 2 ^ 64 - 1 < 1) ∧
      (logKey (2 ^ 64 - 1) = logKey 1 → 2 ^ 64 - 1 = 1)) :=
  ⟨logKey_order_is_index_order 255 256 (by decide) (by decide),
   logKey_order_is_index_order (2 ^ 64 - 1) 1 (by decide) (by decide)⟩

/-- Claim C14 fails as stated: with the default profile, a registered callback
and a ready handle, a memtable of 510027366 bytes and no level-0 sublevel make
`notify` pass `true`, while 510027366 is below 95% of 128 MiB times 4
(510027366.4) and 0 is below 24 - 1. -/
theorem notify_busy_differs_from_formula :
    eventListener.notify (getOptions [WithLogDBCallback (some 1)]) true ⟨510027366, 0⟩
        = some true ∧
      ¬ busyFormula (128 * 1024 * 1024) 4 24 510027366 0 := by
  refine ⟨by decide, ?_⟩
  unfold busyFormula
  norm_num

/-- Claim C14 as amended: with a registered callback and a ready handle, the
boolean passed to the callback is true exactly when
`m ≥ ⌊((W * N mod 2^64) * 19 mod 2^64) / 20⌋` or `l ≥ (S - 1) mod 2^64`; when
`W * N * 19 < 2^64` and `S ≥ 1` that is `m ≥ ⌊W * N * 19 / 20⌋` or `l ≥ S - 1`,
the first of which says `m > W * N * 0.95 - 1` in exact arithmetic. -/
theorem notify_busy_in_uint64 (o : options) (cb : Nat) (m : Metrics)
    (hcb : o.callback = some cb) (hS : o.config.KVLevel0StopWritesTrigger < 2 ^ 64)
    (hl : m.L0Sublevels < 2 ^ 64) :
    ∃ busy, eventListener.notify o true m = some busy ∧
      (busy = true ↔
        m.MemTableSize ≥
            o.config.KVWriteBufferSize * o.config.KVMaxWriteBufferNumber % 2 ^ 64 * 19
              % 2 ^ 64 / 20 ∨
          m.L0Sublevels ≥ (o.config.KVLevel0StopWritesTrigger + 2 ^ 64 - 1) % 2 ^ 64) ∧
      (o.config.KVWriteBufferSize * o.config.KVMaxWriteBufferNumber * 19 < 2 ^ 64 →
        1 ≤ o.config.KVLevel0StopWritesTrigger →
        ((busy = true ↔
            m.MemTableSize ≥
                o.config.KVWriteBufferSize * o.config.KVMaxWriteBufferNumber * 19 / 20 ∨
              m.L0Sublevels ≥ o.config.KVLevel0StopWritesTrigger - 1) ∧
          (busy = true ↔
            (m.MemTableSize : ℚ) + 1 >
                ((o.config.KVWriteBufferSize * o.config.KVMaxWriteBufferNumber : ℕ) : ℚ)
                  * (95 / 100) ∨
              (m.L0Sublevels : ℤ) ≥ (o.config.KVLevel0StopWritesTrigger : ℤ) - 1))) := by
  have hS' : o.config.KVLevel0StopWritesTrigger % 2 ^ 64 = o.config.KVLevel0StopWritesTrigger :=
    Nat.mod_eq_of_lt hS
  have hl' : m.L0Sublevels % 2 ^ 64 = m.L0Sublevels := Nat.mod_eq_of_lt hl
  have hfirst : ∀ busy, eventListener.notify o true m = some busy →
      (busy = true ↔
        m.MemTableSize ≥
            o.config.KVWriteBufferSize * o.config.KVMaxWriteBufferNumber % 2 ^ 64 * 19
              % 2 ^ 64 / 20 ∨
          m.L0Sublevels ≥ (o.config.KVLevel0StopWritesTrigger + 2 ^ 64 - 1) % 2 ^ 64) := by
    intro busy hb
    simp only [eventListener.notify, hcb, if_true, hS', hl', Option.some.injEq] at hb
    rw [← hb]
    simp only [Bool.or_eq_true, decide_eq_true_eq]
  have hn : ∃ b, eventListener.notify o true m = some b := by
    simp only [eventListener.notify, hcb, if_true, Option.some.injEq, exists_eq']
  obtain ⟨b, hb⟩ := hn
  refine ⟨b, hb, hfirst b hb, ?_⟩
  intro hov hS1
  have h1 := hfirst b hb
  generalize o.config.KVWriteBufferSize * o.config.KVMaxWriteBufferNumber = p at hov h1 ⊢
  have hp : p % 2 ^ 64 * 19 % 2 ^ 64 / 20 = p * 19 / 20 := by
    rw [Nat.mod_eq_of_lt (by omega : p < 2 ^ 64), Nat.mod_eq_of_lt hov]
  have hs : (o.config.KVLevel0StopWritesTrigger + 2 ^ 64 - 1) % 2 ^ 64
      = o.config.KVLevel0StopWritesTrigger - 1 := by omega
  rw [hp, hs] at h1
  refine ⟨h1, ?_⟩
  rw [h1, ge_floor_iff]
  have hz : m.L0Sublevels ≥ o.config.KVLevel0StopWritesTrigger - 1 ↔
      (m.L0Sublevels : ℤ) ≥ (o.config.KVLevel0StopWritesTrigger : ℤ) - 1 := by omega
  rw [hz]

/-- Claim C14 as amended, at the default profile with a memtable of 510027366
bytes and no level-0 sublevel. -/
theorem notify_busy_in_uint64_witness :
    ∃ busy, eventListener.notify (getOptions [WithLogDBCallback (some 1)]) true
        ⟨510027366, 0⟩ = some busy ∧ busy = true :=
  have h := notify_busy_in_uint64 (getOptions [WithLogDBCallback (some 1)]) 1
    ⟨510027366, 0⟩ (by decide) (by decide) (by decide)
  h.elim (fun busy hb => ⟨busy, hb.1, hb.2.1.mpr (Or.inl (by decide))⟩)

/-- Claim C15, the code with a caller's engine configuration and two profiles:
built with `WithPebbleOptions(P)` and the default profile, or with
`WithPebbleOptions(P)` and the tiny-memory profile, the store opens the engine
with exactly `P` both times, yet for a memtable of 20000000 bytes and no
level-0 sublevel the callback receives `false` with the first profile and
`true` with the second: the thresholds of `notify` still come from the
profile. -/
theorem custom_options_busy_follows_profile :
    (New [WithPebbleOptions (some callerOptions), WithConfig GetDefaultRaftLogRocksDBConfig,
        WithLogDBCallback (some 1)]).opts = callerOptions ∧
      (New [WithPebbleOptions (some callerOptions), WithConfig GetTinyMemRaftLogRocksDBConfig,
        WithLogDBCallback (some 1)]).opts = callerOptions ∧
      eventListener.notify
        (New [WithPebbleOptions (some callerOptions), WithConfig GetDefaultRaftLogRocksDBConfig,
          WithLogDBCallback (some 1)]).kvOptions true ⟨20000000, 0⟩ = some false ∧
      eventListener.notify
        (New [WithPebbleOptions (some callerOptions), WithConfig GetTinyMemRaftLogRocksDBConfig,
          WithLogDBCallback (some 1)]).kvOptions true ⟨20000000, 0⟩ = some true := by
  refine ⟨rfl, rfl, by decide, by decide⟩

/-- Claim C16 fails as stated: with one level and `KVBlockSize = 2^63` the
level's block size is `int(2^63)`, which is `-2^63` and not `KVBlockSize`. -/
theorem level_block_size_is_reinterpreted :
    (New.levels { getDefaultRaftLogRocksDBConfig with
        KVNumOfLevels := 1, KVBlockSize := 2 ^ 63 }).map (fun o => o.BlockSize)
      = [-9223372036854775808] ∧
    ¬ ((New.levels { getDefaultRaftLogRocksDBConfig with
        KVNumOfLevels := 1, KVBlockSize := 2 ^ 63 }).map (fun o => o.BlockSize)
      = [((2 ^ 63 : Nat) : Int)]) := by
  decide

/-- Claim C16 as amended: for every profile with `n = KVNumOfLevels < 2^63` the
level options built by `New` have exactly `n` elements, and the element of
level `l < n` has compression disabled, block size `KVBlockSize` reinterpreted
as a signed 64-bit integer (`KVBlockSize` itself when it is below `2^63`) and
target file size `(KVTargetFileSizeBase * KVTargetFileSizeMultiplier^l) mod 2^64`
reinterpreted as a signed 64-bit integer; with the default profile these are 7
levels with block size 32 KiB and sizes `16 MiB * 2^l`. -/
theorem levels_derivation (config : RaftLogRocksDBConfig) (hn : config.KVNumOfLevels < 2 ^ 63) :
    (New.levels config).length = config.KVNumOfLevels ∧
      (∀ l, l < config.KVNumOfLevels →
        (New.levels config)[l]? = some
          { Compression := Compression.NoCompression
            BlockSize := toInt64 config.KVBlockSize
            TargetFileSize := toInt64
              (config.KVTargetFileSizeBase * config.KVTargetFileSizeMultiplier ^ l % 2 ^ 64) }) ∧
      (config.KVBlockSize < 2 ^ 63 → toInt64 config.KVBlockSize = (config.KVBlockSize : Int)) ∧
      New.levels getDefaultRaftLogRocksDBConfig =
        [⟨Compression.NoCompression, 32768, 16777216⟩,
         ⟨Compression.NoCompression, 32768, 33554432⟩,
         ⟨Compression.NoCompression, 32768, 67108864⟩,
         ⟨Compression.NoCompression, 32768, 134217728⟩,
         ⟨Compression.NoCompression, 32768, 268435456⟩,
         ⟨Compression.NoCompression, 32768, 536870912⟩,
         ⟨Compression.NoCompression, 32768, 1073741824⟩] := by
  have hcount : (toInt64 config.KVNumOfLevels).toNat = config.KVNumOfLevels := by
    rw [toInt64_of_lt _ hn]; rfl
  have heq := levelLoop_eq config config.KVNumOfLevels (config.KVTargetFileSizeBase % 2 ^ 64) []
  have hlev : New.levels config = (List.range config.KVNumOfLevels).map (fun l =>
      ({ Compression := Compression.NoCompression
         BlockSize := toInt64 config.KVBlockSize
         TargetFileSize := toInt64
           (config.KVTargetFileSizeBase * config.KVTargetFileSizeMultiplier ^ l % 2 ^ 64) }
        : LevelOptions)) := by
    rw [New.levels, hcount, heq, List.nil_append]
    apply List.map_congr_left
    intro l _
    rw [Nat.mod_mul_mod]
  refine ⟨?_, ?_, toInt64_of_lt _, by decide⟩
  · rw [hlev, List.length_map, List.length_range]
  · intro l hl
    rw [hlev, List.getElem?_map, List.getElem?_range hl]
    rfl

/-- Claim C16 as amended, at a profile whose sizes wrap: base `2^62`,
multiplier 3 and 3 levels. -/
theorem levels_derivation_witness :
    (New.levels { getDefaultRaftLogRocksDBConfig with
        KVNumOfLevels := 3, KVTargetFileSizeBase := 2 ^ 62,
        KVTargetFileSizeMultiplier := 3 }).length = 3 ∧
      (New.levels { getDefaultRaftLogRocksDBConfig with
        KVNumOfLevels := 3, KVTargetFileSizeBase := 2 ^ 62,
        KVTargetFileSizeMultiplier := 3 })[1]? = some
          { Compression := Compression.NoCompression
            BlockSize := 32768
            TargetFileSize := -4611686018427387904 } :=
  have h := levels_derivation { getDefaultRaftLogRocksDBConfig with
        KVNumOfLevels := 3, KVTargetFileSizeBase := 2 ^ 62,
        KVTargetFileSizeMultiplier := 3 } (by decide)
  ⟨h.1, (h.2.1 1 (by decide)).trans (by decide)⟩

end RaftPebble
